import Mathlib

/-!
# Verification of the lspath trace-to-model reconstruction engine

This file gives a shallow embedding, in Lean 4, of the core of the `lspath`
repository (Go): the trace line parser (`internal/trace/parser.go`) and the
path-evolution reconstructor / flow-graph builder / consistency
post-processor / session unifier (`internal/trace/analyzer.go`).

Modelling conventions:

* Go strings are Lean `String`s; all character-level work is done on the
  underlying `List Char` (`String.data`) with structural recursion so that
  every definition is executable and kernel-reducible.  Go indexes strings
  by byte; we index by character.  For every use in this code base the two
  agree: the scanned tokens (`"PATH="`, `' '`, `';'`, `"export "`, `'/'`,
  `':'`, quotes) are ASCII, and an ASCII byte can never be a continuation
  byte of a multi-byte UTF-8 character, so byte comparisons against ASCII
  literals coincide with character comparisons.
* Go `int` is modelled as `Int`, with 64-bit overflow made explicit where it
  matters (`goAtoi`).
* Go maps keyed by strings are modelled as association lists with
  insert-replaces-existing semantics; the Go code only ever looks maps up by
  key, so iteration order never matters.
* Filesystem access (`os.Lstat`/`os.Readlink`/`os.Stat`/`os.UserHomeDir`)
  is modelled by an explicit oracle `FS` passed to the analysis functions.
-/

namespace LsPath

/-! ## Character-list string primitives (ports of Go `strings` functions) -/

/-- Characters of a string. -/
def chars (s : String) : List Char := s.data

/-- Rebuild a string from characters. -/
def ofChars (l : List Char) : String := String.mk l

/-- Port of `strings.HasPrefix` (on character lists). -/
def hasPre (s pre : List Char) : Bool := List.isPrefixOf pre s

/-- Port of `strings.HasSuffix` (on character lists). -/
def hasSuf (s suf : List Char) : Bool := List.isSuffixOf suf s

/-- Does `needle` occur as a contiguous substring of `hay`?
Port of `strings.Contains`. -/
def listContainsSub (hay needle : List Char) : Bool :=
  match hay with
  | [] => List.isPrefixOf needle []
  | _ :: t => List.isPrefixOf needle hay || listContainsSub t needle

/-- Index (in characters) of the first occurrence of `needle` in `hay`,
if any.  Port of `strings.Index`. -/
def listIdxSub (hay needle : List Char) : Option Nat :=
  match hay with
  | [] => if List.isPrefixOf needle ([] : List Char) then some 0 else none
  | _ :: t =>
    if List.isPrefixOf needle hay then some 0
    else (listIdxSub t needle).map (· + 1)

/-- Split a character list on a separator character.
Port of `strings.Split` with a one-character separator: the result always
has one more element than the number of separators, and splitting the empty
string yields `[[]]`. -/
def splitCh (l : List Char) (c : Char) : List (List Char) :=
  match l with
  | [] => [[]]
  | x :: xs =>
    match splitCh xs c with
    | [] => [[]]
    | h :: t => if x = c then [] :: h :: t else (x :: h) :: t

/-- Join character-list pieces with a separator character (inverse of
`splitCh`; used to port `strings.Join` / `filepath` assembly). -/
def joinCh (pieces : List (List Char)) (c : Char) : List Char :=
  match pieces with
  | [] => []
  | [p] => p
  | p :: rest => p ++ c :: joinCh rest c

/-- String-level `strings.Contains`. -/
def strContains (s sub : String) : Bool := listContainsSub (chars s) (chars sub)

/-- String-level `strings.HasPrefix`. -/
def strHasPre (s pre : String) : Bool := hasPre (chars s) (chars pre)

/-- String-level `strings.HasSuffix`. -/
def strHasSuf (s suf : String) : Bool := hasSuf (chars s) (chars suf)

/-- String-level `strings.Split` with a one-character separator. -/
def strSplit (s : String) (c : Char) : List String :=
  (splitCh (chars s) c).map ofChars

/-- Port of `strings.TrimPrefix`. -/
def strTrimPre (s pre : String) : String :=
  if strHasPre s pre then ofChars ((chars s).drop (chars pre).length) else s

/-- Port of `strings.TrimSuffix`. -/
def strTrimSuf (s suf : String) : String :=
  if strHasSuf s suf then
    ofChars ((chars s).take ((chars s).length - (chars suf).length))
  else s

/-- Port of `strings.ToLower`.  Go lowers full Unicode while `Char.toLower`
only lowers ASCII; the only use in the analyzed code is testing whether a
lowered file path contains the ASCII substrings `"bash"`/`"zsh"`, and no
non-ASCII character lowers to an ASCII letter of those words, so the two
agree on every use. -/
def strToLower (s : String) : String := ofChars ((chars s).map Char.toLower)

/-- Decimal value of a digit string (helper for `goAtoi`). -/
def digitsToNat (l : List Char) : Nat :=
  l.foldl (fun a c => a * 10 + (c.toNat - 48)) 0

/-- Is every character an ASCII digit? -/
def isDigits (l : List Char) : Bool := l.all (fun c => '0' ≤ c ∧ c ≤ '9')

/-- Port of `strconv.Atoi` restricted to the non-empty all-digit strings
produced by the trace regex capture `(\d+)`: such a string never fails with
a syntax error, and on a 64-bit platform (Go `int` = `int64`) a value that
does not fit is clamped to `2^63 - 1` and reported via an error that the
caller (`parser.go` line 51) discards. -/
def goAtoi (l : List Char) : Int :=
  let n := digitsToNat l
  if n > 2 ^ 63 - 1 then ((2 : Int) ^ 63 - 1) else (n : Int)

end LsPath

namespace LsPath

-- sanity checks on the primitives (kernel-evaluable)

/-! ## Ports of `path/filepath` (Unix rules) -/

/-- Port of `filepath.IsAbs` on Unix. -/
def goIsAbs (p : String) : Bool := strHasPre p "/"

/-- Stack step of the path-cleaning algorithm: processing one component. -/
def cleanStep (rooted : Bool) (stack : List (List Char)) (comp : List Char) :
    List (List Char) :=
  if comp = chars ".." then
    match stack with
    | [] => if rooted then [] else [chars ".."]
    | top :: rest => if top = chars ".." then comp :: stack else rest
  else comp :: stack

/-- Port of `filepath.Clean` (Unix): empty path cleans to `"."`; `"."`
components and empty components are dropped; a `".."` component removes the
preceding component when one is available, is dropped at the root, and is
kept at the front of a relative path.  This component-stack formulation
computes the same result as Go's in-place buffer algorithm. -/
def goClean (p : String) : String :=
  if p = "" then "." else
  let rooted := goIsAbs p
  let comps := (splitCh (chars p) '/').filter (fun c => c ≠ [] ∧ c ≠ chars ".")
  let parts := (comps.foldl (cleanStep rooted) []).reverse
  if rooted then ofChars ('/' :: joinCh parts '/')
  else if parts = [] then "." else ofChars (joinCh parts '/')

/-- Port of the two-argument `filepath.Join`: empty elements are skipped and
the concatenation is cleaned; joining two empty strings gives `""`. -/
def goJoin (a b : String) : String :=
  if a = "" ∧ b = "" then ""
  else goClean (ofChars (joinCh ([chars a, chars b].filter (· ≠ [])) '/'))

/-- Port of `filepath.Dir` (Unix): everything up to and including the final
path separator, cleaned; `"."` if the path contains no separator. -/
def goDir (p : String) : String :=
  goClean (ofChars (((chars p).reverse.dropWhile (· ≠ '/')).reverse))


/-! ## Filesystem oracle -/

/-- Oracle for the filesystem and environment reads performed by the
analyzer.  `readlink p = some t` models "`os.Lstat p` reports a symlink and
`os.Readlink p` returns target `t`"; `none` covers every other case (not a
symlink, or either syscall failed).  `statExists p = false` models
"`os.Stat` failed with `os.IsNotExist`".  `homeDir` models
`os.UserHomeDir` (`none` = error). -/
structure FS where
  readlink : String → Option String
  statExists : String → Bool
  homeDir : Option String

/-- The trivial oracle: no symlinks, every directory exists, no home
directory available. -/
def trivFS : FS :=
  { readlink := fun _ => none, statExists := fun _ => true, homeDir := none }

/-- Port of `expandTilde` (analyzer.go): expands a leading `~/` (or a bare
`~`) to the user's home directory when it is available. -/
def expandTilde (fs : FS) (path : String) : String :=
  if strHasPre path "~/" then
    match fs.homeDir with
    | some home => goJoin home (ofChars ((chars path).drop 2))
    | none => path
  else if path = "~" then
    match fs.homeDir with
    | some home => home
    | none => path
  else path

/-! ## Data model (`internal/model`)

The `model` package's current struct declarations are not among the supplied
source files (only an earlier revision is), but every field below is fixed by
its uses in `analyzer.go`/`parser.go`; defaults are the Go zero values. -/

/-- `model.TraceEvent`. -/
structure TraceEvent where
  File : String := ""
  Line : Int := 0
  RawCommand : String := ""
  PathChange : String := ""
  deriving DecidableEq, Repr

/-- `model.PathEntry`. -/
structure PathEntry where
  Value : String := ""
  SourceFile : String := ""
  LineNumber : Int := 0
  Mode : String := ""
  IsDuplicate : Bool := false
  DuplicateOf : Nat := 0
  DuplicateMessage : String := ""
  Remediation : String := ""
  IsSymlink : Bool := false
  SymlinkTarget : String := ""
  SymlinkPointsTo : Int := 0
  SymlinkMessage : String := ""
  IsSessionOnly : Bool := false
  SessionNote : String := ""
  FlowID : String := ""
  Diagnostics : List String := []
  deriving DecidableEq, Repr

/-- `model.ConfigNode`. -/
structure ConfigNode where
  ID : String := ""
  FilePath : String := ""
  Order : Int := 0
  Depth : Int := 0
  Description : String := ""
  NotExecuted : Bool := false
  Entries : List Nat := []
  deriving DecidableEq, Repr

/-- `model.AnalysisResult`. -/
structure AnalysisResult where
  PathEntries : List PathEntry := []
  FlowNodes : List ConfigNode := []
  Diagnostics : List String := []
  deriving DecidableEq, Repr

/-! ## Trace line parser (`internal/trace/parser.go`)

The parser's regex `.*\+(?: )?([^:]+):(\d+)>(.*)` either rejects a raw line
(silently skipped) or captures a file name (non-empty, colon-free), a line
number field (non-empty, all ASCII digits) and the rest of the line as the
command.  We embed the per-match processing that turns those three captured
fields into a `TraceEvent`. -/

/-- Port of `cleanPathValue`: strip one leading/trailing single quote, then
one leading/trailing double quote. -/
def cleanPathValue (v : String) : String :=
  strTrimSuf (strTrimPre (strTrimSuf (strTrimPre v "'") "'") "\"") "\""

/-- Port of the `PATH=` detection block of `Parser.Parse` (parser.go lines
71-104): find the first occurrence of `"PATH="` in the command; accept it
only when the occurrence passes the validity check (at the start of the
string, or the Go condition chain on the preceding character); on success
the path change is the quote-stripped remainder after `"PATH="`. -/
def detectPathChange (cmd : String) : String :=
  let cs := chars cmd
  match listIdxSub cs (chars "PATH=") with
  | none => ""
  | some idx =>
    let valid : Bool :=
      if idx = 0 then true
      else
        -- Go: `idx > 0 && (cmd[idx-1] == ' ' || HasSuffix(cmd[:idx], "export "))`
        let prev := cs.getD (idx - 1) ' '
        if prev = ' ' ∨ hasSuf (cs.take idx) (chars "export ") then
          -- Go's inner re-check of the preceding character
          if prev ≠ ' ' then (prev = ' ' ∨ prev = ';') else true
        else false
    if valid then cleanPathValue (ofChars (cs.drop (idx + 5))) else ""

/-- Port of the event construction for a line matched by the trace regex
(parser.go lines 47-113): `file` and `cmd` are the captured fields, `lineS`
the captured digit field. -/
def parseMatched (file : String) (lineS : List Char) (cmd : String) :
    TraceEvent :=
  { File := file
    Line := goAtoi lineS
    RawCommand := cmd
    PathChange := detectPathChange cmd }


/-! ## Association-list maps (Go string-keyed maps)

The analyzer only reads its maps by key, so an association list with
replace-on-insert semantics is an exact model. -/

/-- Look a key up in an association list (first binding wins; bindings are
unique because `mapInsert` replaces). -/
def mapLookup {α : Type} (m : List (String × α)) (k : String) : Option α :=
  match m with
  | [] => none
  | (k', v) :: rest => if k' = k then some v else mapLookup rest k

/-- Insert a binding, replacing an existing binding of the same key
(Go `m[k] = v`). -/
def mapInsert {α : Type} (m : List (String × α)) (k : String) (v : α) :
    List (String × α) :=
  match m with
  | [] => [(k, v)]
  | (k', v') :: rest =>
    if k' = k then (k, v) :: rest else (k', v') :: mapInsert rest k v

/-- Go map read of a `bool` value: a missing key reads as `false`
(`evalUsed[ev.File]`). -/
def lookupBoolD (m : List (String × Bool)) (k : String) : Bool :=
  (mapLookup m k).getD false

/-! ## Analyzer helper predicates (`internal/trace/analyzer.go`) -/

/-- The minimal baseline PATH the sandboxed trace starts from
(`SandboxInitialPath`, executor). -/
def sandboxInitialPath : String := "/usr/bin:/bin:/usr/sbin:/sbin"

/-- Port of `isLikelySystemPath`: fixed allow-list of well-known OS-default
directories. -/
def isLikelySystemPath (path : String) : Bool :=
  [ "/usr/local/sbin", "/usr/local/bin", "/usr/sbin", "/usr/bin", "/sbin",
    "/bin", "/usr/games", "/usr/local/games", "/snap/bin", "/opt/local/bin",
    "/opt/local/sbin" ].any (fun sysPath => path = sysPath)

/-- Port of `isImportantConfig`: is this a standard shell configuration file
(kept visible in the flow even when it contributed nothing)? -/
def isImportantConfig (path : String) : Bool :=
  if path = "System (Default)" then true
  else
    [ "zshenv", ".zshenv", "zprofile", ".zprofile", "zshrc", ".zshrc",
      "zlogin", ".zlogin", "bash_profile", ".bash_profile", "bashrc",
      ".bashrc", "bash.bashrc", "profile", ".profile", "bash_login"
    ].any (fun k => strHasSuf path ("/" ++ k) || path = k)

/-- Port of `getPathDescription`. -/
def getPathDescription (path : String) : String :=
  if path = "System (Default)" then "Initial environment PATH"
  else if strHasPre path "/etc/" then
    if strContains path "env" then "(system-wide env)"
    else if strContains path "profile" then "(system-wide profile)"
    else if strContains path "rc" then "(system-wide rc)"
    else "(system-wide)"
  else if strContains path "/.zshrc" || strContains path "/.zprofile" ||
      strContains path "/.zshenv" || strContains path "/.zlogin" ||
      strContains path "/.profile" || strHasPre path "~" then
    "(user-specific)"
  else ""

/-- Port of `GuessShellMode`. -/
def guessShellMode (filename : String) : String :=
  if strContains filename "zprofile" || strContains filename "zlogin" ||
      strContains filename "bash_profile" || strContains filename "profile" then
    "Login"
  else if strContains filename "zshrc" || strContains filename "bashrc" then
    "Interactive"
  else if strContains filename "zshenv" || strContains filename "environment" then
    "Env/All"
  else "Unknown"

/-- The eval-detection test of `Analyze` (lines 502-503): the raw command
contains `"eval "` together with a command substitution marker (`"$("` or a
backquote). -/
def hasEvalSubst (raw : String) : Bool :=
  strContains raw "eval " &&
    (strContains raw "$(" || strContains raw "\u0060")

/-- The top-level-file test of `Analyze` (line 546): a canonical config file
that is not a known continuation case. -/
def isTopLevelFile (f : String) : Bool :=
  isImportantConfig f && !strContains f "cargo" && !strContains f "nvm"

/-- The noisy-internal-file test of `Analyze` (line 514). -/
def isSystemNoise (f : String) : Bool :=
  strHasPre f "/usr/share/zsh" || strHasPre f "/etc/zshrc_Apple_Terminal"

/-! ## Path evolution reconstructor (`Analyze`, lines 429-655) -/

/-- Truncate the file nesting stack at the last (topmost) occurrence of
`f`, keeping that occurrence; `none` when `f` is not on the stack.  Ports
the top-down stack search plus `fileStack = fileStack[:stackIdx+1]`
(lines 531-541); the list's end is the stack top. -/
def truncAtLast (stack : List String) (f : String) : Option (List String) :=
  match stack with
  | [] => none
  | x :: xs =>
    match truncAtLast xs f with
    | some r => some (x :: r)
    | none => if x = f then some [x] else none

/-- Mutable state of the `Analyze` event loop.  `currentNode` holds the ID
of the node the Go code keeps a pointer to (`none` = nil pointer: reachable
only for an event whose file name is empty, which the parser never
produces — Go would nil-panic on a path change there; we substitute `""`). -/
structure AState where
  flowNodes : List ConfigNode
  lastFile : String
  currentNode : Option String
  lastPathStr : String
  currentEntries : List PathEntry
  fileStack : List String
  evalContext : List (String × Int)
  evalUsed : List (String × Bool)
  nodeCounter : Nat
  deriving DecidableEq, Repr

/-- Initial loop state (lines 430-498): baseline PATH seeds the snapshot and
a synthetic `node-0`, and is installed as the last seen PATH string. -/
def initState (initialPath : String) : AState :=
  { flowNodes :=
      if initialPath ≠ "" then
        [{ ID := "node-0", FilePath := "System (Default)", Order := 0,
           Depth := 0, Description := "Initial environment PATH",
           Entries := [] }]
      else []
    lastFile := ""
    currentNode := none
    lastPathStr := initialPath
    currentEntries :=
      if initialPath ≠ "" then
        ((strSplit initialPath ':').filter (· ≠ "")).map (fun p =>
          { Value := p, SourceFile := "System (Default)", LineNumber := 0,
            Mode := "System", FlowID := "node-0" })
      else []
    fileStack := []
    evalContext := []
    evalUsed := []
    nodeCounter := 0 }

/-- The fresh entry created for a PATH segment not present in the previous
snapshot (lines 635-641). -/
def mkFreshEntry (p file : String) (lineNum : Int) (nodeID : String) : PathEntry :=
  { Value := p
    SourceFile := file
    LineNumber := lineNum
    FlowID := nodeID
    Mode := guessShellMode file }

/-- Port of the PATH-diff loop body (lines 590-644): walk the segments of
the new PATH string; a segment found in the previous snapshot is copied
(first match, full record); a new segment becomes a fresh entry attributed
to the current file and line — or to the recorded eval line when an
unused eval from an earlier line exists, which immediately marks the eval
used.  Returns the new snapshot and the final used flag. -/
def buildNewEntries (old : List PathEntry) (file : String) (line : Int)
    (nodeID : String) (evalLine? : Option Int) :
    Bool → List String → List PathEntry × Bool
  | used, [] => ([], used)
  | used, p :: rest =>
    if p = "" then buildNewEntries old file line nodeID evalLine? used rest
    else
      match old.find? (fun curr => curr.Value = p) with
      | some e =>
        let r := buildNewEntries old file line nodeID evalLine? used rest
        (e :: r.1, r.2)
      | none =>
        let lu : Int × Bool :=
          match evalLine? with
          | some evalLine =>
            if used = false ∧ evalLine < line then (evalLine, true)
            else (line, used)
          | none => (line, used)
        let r := buildNewEntries old file line nodeID evalLine? lu.2 rest
        (mkFreshEntry p file lu.1 nodeID :: r.1, r.2)

/-- First block of the `Analyze` event loop body (lines 501-506): record
an eval containing command substitution. -/
def evalStep (st : AState) (ev : TraceEvent) : AState :=
  if hasEvalSubst ev.RawCommand then
    { st with evalContext := mapInsert st.evalContext ev.File ev.Line
              evalUsed := mapInsert st.evalUsed ev.File false }
  else st

/-- Second block of the loop body (lines 508-585): flow-node creation on
file switch, with noisy-file suppression and nesting-stack management. -/
def nodeStep (st : AState) (ev : TraceEvent) : AState :=
  if ev.File ≠ st.lastFile then
    if isSystemNoise ev.File ∧ ev.PathChange = "" then st
    else
      let stack :=
        match truncAtLast st.fileStack ev.File with
        | some s => s
        | none =>
          if isTopLevelFile ev.File then [ev.File]
          else st.fileStack ++ [ev.File]
      let depth : Int := max 0 ((stack.length : Int) - 1)
      let n := st.nodeCounter + 1
      let node : ConfigNode :=
        { ID := "node-" ++ toString n, FilePath := ev.File,
          Order := (n : Int), Depth := depth,
          Description := getPathDescription ev.File, Entries := [] }
      { st with flowNodes := st.flowNodes ++ [node]
                currentNode := some node.ID
                lastFile := ev.File
                fileStack := stack
                nodeCounter := n }
  else st

/-- Third block of the loop body (lines 588-647): the PATH diff. -/
def diffStep (st : AState) (ev : TraceEvent) : AState :=
  if ev.PathChange ≠ "" ∧ ev.PathChange ≠ st.lastPathStr then
    let r :=
      buildNewEntries st.currentEntries ev.File ev.Line
        ((st.currentNode).getD "") (mapLookup st.evalContext ev.File)
        (lookupBoolD st.evalUsed ev.File) (strSplit ev.PathChange ':')
    { st with currentEntries := r.1
              lastPathStr := ev.PathChange
              evalUsed :=
                if r.2 then mapInsert st.evalUsed ev.File true
                else st.evalUsed }
  else st

/-- Port of one iteration of the `Analyze` event loop (lines 500-648):
eval tracking, then flow-node creation, then the PATH diff. -/
def stepEvent (st : AState) (ev : TraceEvent) : AState :=
  diffStep (nodeStep (evalStep st ev) ev) ev

/-- The whole event loop. -/
def runEvents (events : List TraceEvent) (initialPath : String) : AState :=
  events.foldl stepEvent (initState initialPath)

/-- The provisional entry list at stream end (lines 650-655): the final
snapshot, copied with `SymlinkPointsTo` initialised to `-1`. -/
def provisionalEntries (events : List TraceEvent) (initialPath : String) :
    List PathEntry :=
  (runEvents events initialPath).currentEntries.map
    (fun e => { e with SymlinkPointsTo := -1 })

/-! ## Consistency post-processor (`Analyze`, lines 657-743)

A single forward pass over the entry list carrying two maps:
`seen` (normalized value → index of its first non-duplicate holder) and
`resolved` (resolved symlink target → index of its last non-duplicate
holder).  The fold state is the processed prefix plus both maps. -/

/-- State of the post-processing pass. -/
structure PPState where
  done : List PathEntry
  seen : List (String × Nat)
  resolved : List (String × Nat)
  deriving Repr

/-- Empty post-processing state. -/
def ppInit : PPState := { done := [], seen := [], resolved := [] }

/-- One iteration of the post-processing loop of `Analyze`
(lines 661-743): expand `~`, resolve one symlink level, mark duplicates
(with the two message variants and the remediation advice), otherwise
cross-reference a symlink target, register first-seen values, and flag
missing directories. -/
def ppStepA (fs : FS) (st : PPState) (e0 : PathEntry) : PPState :=
  let i := st.done.length
  let normalizedPath := expandTilde fs e0.Value
  let (e1, resolvedPath) :=
    match fs.readlink normalizedPath with
    | some target =>
      let absTarget :=
        if goIsAbs target then target
        else goJoin (goDir normalizedPath) target
      let absTarget := goClean absTarget
      ({ e0 with IsSymlink := true
                 SymlinkTarget := absTarget
                 SymlinkPointsTo := -1 }, absTarget)
    | none => (e0, "")
  let resolvedPath := if resolvedPath = "" then normalizedPath else resolvedPath
  let e2 :=
    match mapLookup st.seen normalizedPath with
    | some firstIdx =>
      let orig := st.done.getD firstIdx {}
      if e1.SourceFile = orig.SourceFile ∧ e1.LineNumber = orig.LineNumber then
        { e1 with
          IsDuplicate := true
          DuplicateOf := firstIdx
          DuplicateMessage := "Duplicates PATH entry #" ++
            toString (firstIdx + 1) ++ " which was already in $PATH"
          Remediation := "Advice: remove line " ++ toString (firstIdx + 1) ++
            " from " ++ e1.SourceFile ++
            " (tentative, advice may be wrong due to shell tracing limitations)" }
      else
        { e1 with
          IsDuplicate := true
          DuplicateOf := firstIdx
          DuplicateMessage := "Duplicates PATH entry #" ++
            toString (firstIdx + 1) ++ " (from line " ++
            toString orig.LineNumber ++ " of " ++ orig.SourceFile ++ ")"
          Remediation := "Advice: remove line " ++ toString (firstIdx + 1) ++
            " from " ++ orig.SourceFile ++
            " (tentative, advice may be wrong due to shell tracing limitations)" }
    | none =>
      if e1.IsSymlink then
        match mapLookup st.resolved resolvedPath with
        | some firstIdx =>
          { e1 with
            SymlinkPointsTo := (firstIdx : Int)
            SymlinkMessage := "Symlink resolves to PATH entry #" ++
              toString (firstIdx + 1) ++ " (" ++ e1.SymlinkTarget ++ ")" }
        | none => e1
      else e1
  let (seen', resolved') :=
    if e2.IsDuplicate = false then
      (mapInsert st.seen normalizedPath i, mapInsert st.resolved resolvedPath i)
    else (st.seen, st.resolved)
  let e3 :=
    if fs.statExists normalizedPath then e2
    else { e2 with Diagnostics := e2.Diagnostics ++ ["Directory does not exist on disk."] }
  { done := st.done ++ [e3], seen := seen', resolved := resolved' }

/-- Post-processing state after the first `k` entries. -/
def ppStateA (fs : FS) (entries : List PathEntry) (k : Nat) : PPState :=
  (entries.take k).foldl (ppStepA fs) ppInit

/-- The full post-processing pass. -/
def ppAnalyze (fs : FS) (entries : List PathEntry) : List PathEntry :=
  (entries.foldl (ppStepA fs) ppInit).done

/-! ## Flow graph builder (`Analyze`, lines 745-788, and
`injectMissingNodes` / `detectShellFromNodes`, lines 1169-1322) -/

/-- Indices (ascending) of the entries owned by flow node `id`. -/
def entryIdxsFor (entries : List PathEntry) (id : String) : List Nat :=
  (List.range entries.length).filter
    (fun i => (entries.getD i {}).FlowID = id)

/-- Port of the reverse attribution pass (lines 747-755): append to each
node the indices of the entries whose `FlowID` names it.  The Go code goes
through a map from node ID to node pointer; node IDs are pairwise distinct
by construction (`node-0`, then `node-k` for a strictly increasing
counter), so attaching the indices directly to each node is equivalent. -/
def attributeEntries (nodes : List ConfigNode) (entries : List PathEntry) :
    List ConfigNode :=
  nodes.map (fun n => { n with Entries := n.Entries ++ entryIdxsFor entries n.ID })

/-- Rewrite `FlowID` of the entries at indices `idxs` (counting from `i0`);
helper for `setFlowIDs`. -/
def setFlowIDsFrom (i0 : Nat) (entries : List PathEntry) (idxs : List Nat)
    (id : String) : List PathEntry :=
  match entries with
  | [] => []
  | e :: rest =>
    (if idxs.contains i0 then { e with FlowID := id } else e) ::
      setFlowIDsFrom (i0 + 1) rest idxs id

/-- Rewrite `FlowID` of the entries at the given indices
(the merge redirection of lines 768-771). -/
def setFlowIDs (entries : List PathEntry) (idxs : List Nat) (id : String) :
    List PathEntry :=
  setFlowIDsFrom 0 entries idxs id

/-- Port of the filter-and-merge pass (lines 757-776): drop nodes with no
entries unless they are canonical config files; merge a node into the
immediately preceding retained node when both name the same file,
redirecting the merged entries' `FlowID`. -/
def filterMerge (acc : List ConfigNode × List PathEntry) (node : ConfigNode) :
    List ConfigNode × List PathEntry :=
  if node.Entries = [] ∧ ¬isImportantConfig node.FilePath then acc
  else
    match acc.1.getLast? with
    | some last =>
      if last.FilePath = node.FilePath then
        (acc.1.dropLast ++ [{ last with Entries := last.Entries ++ node.Entries }],
         setFlowIDs acc.2 node.Entries last.ID)
      else (acc.1 ++ [node], acc.2)
    | none => (acc.1 ++ [node], acc.2)

/-- A canonical configuration file with its rank (`standardConfig`). -/
structure StdConfig where
  PathSuffix : String
  Rank : Nat
  deriving DecidableEq, Repr

/-- `zshStandard`. -/
def zshStandard : List StdConfig :=
  [⟨"/etc/zshenv", 1⟩, ⟨"/.zshenv", 2⟩, ⟨"/etc/zprofile", 3⟩,
   ⟨"/.zprofile", 4⟩, ⟨"/etc/zshrc", 5⟩, ⟨"/.zshrc", 6⟩,
   ⟨"/etc/zlogin", 7⟩, ⟨"/.zlogin", 8⟩]

/-- `bashStandard`. -/
def bashStandard : List StdConfig :=
  [⟨"/etc/profile", 1⟩, ⟨"/etc/bash.bashrc", 2⟩, ⟨"/etc/bashrc", 3⟩,
   ⟨"/.bash_profile", 4⟩, ⟨"/.bash_login", 5⟩, ⟨"/.profile", 6⟩,
   ⟨"/.bashrc", 7⟩]

/-- Port of `detectShellFromNodes` (lines 1196-1223): majority-style vote
over executed node file names. -/
def detectShellFromNodes (nodes : List ConfigNode) : String :=
  let counts := nodes.foldl
    (fun (c : Nat × Nat) node =>
      if node.NotExecuted then c
      else
        let p := strToLower node.FilePath
        let bc := if strContains p "bash" then c.1 + 1 else c.1
        let zc := if strContains p "zsh" then c.2 + 1 else c.2
        (bc, zc))
    (0, 0)
  if counts.1 > 0 ∧ counts.2 = 0 then "bash"
  else if counts.2 > 0 ∧ counts.1 = 0 then "zsh"
  else "zsh"

/-- Port of the `getRank` helper of `injectMissingNodes` (lines 1241-1248):
rank of the first canonical suffix the path ends with, or 999. -/
def getRank (stds : List StdConfig) (path : String) : Nat :=
  match stds.find? (fun s => strHasSuf path s.PathSuffix) with
  | some s => s.Rank
  | none => 999

/-- The "not executed" placeholder node for a canonical file
(lines 1269-1281 and 1304-1317): home-relative suffixes are displayed
with a leading `~`. -/
def ghostNode (s : StdConfig) : ConfigNode :=
  { ID := "ghost-" ++ toString s.Rank
    FilePath := if strHasPre s.PathSuffix "/." then "~" ++ s.PathSuffix else s.PathSuffix
    Depth := 0
    NotExecuted := true
    Description := getPathDescription s.PathSuffix
    Entries := [] }

/-- Port of the inner gap-filling loop of `injectMissingNodes`
(lines 1257-1295): emit ghosts for every pending canonical rank strictly
below the current node's rank; consume a pending rank equal to it; stop on
a pending rank above it (rank went backwards). -/
def fillGaps : List StdConfig → Nat → List ConfigNode × List StdConfig
  | [], _ => ([], [])
  | s :: rest, nodeRank =>
    if s.Rank < nodeRank then
      let (g, rem) := fillGaps rest nodeRank
      (ghostNode s :: g, rem)
    else if s.Rank = nodeRank then ([], rest)
    else ([], s :: rest)

/-- Port of the main loop of `injectMissingNodes` (lines 1250-1319):
walk the cleaned nodes, injecting pending ghosts before each canonical
node, and append the still-pending canonical files at the end.
`full` is the complete ranked table used by `getRank`; `stds` the pending
suffix of it. -/
def injectLoop (full : List StdConfig) :
    List StdConfig → List ConfigNode → List ConfigNode
  | stds, [] => stds.map ghostNode
  | stds, node :: rest =>
    let nodeRank := getRank full node.FilePath
    if nodeRank ≠ 999 then
      (fillGaps stds nodeRank).1 ++
        node :: injectLoop full (fillGaps stds nodeRank).2 rest
    else
      node :: injectLoop full stds rest

/-- Port of `injectMissingNodes` (lines 1225-1322). -/
def injectMissingNodes (nodes : List ConfigNode) : List ConfigNode :=
  let standardConfigs :=
    if detectShellFromNodes nodes = "bash" then bashStandard else zshStandard
  injectLoop standardConfigs standardConfigs nodes

/-- Port of `isLoginShell` (lines 849-858). -/
def isLoginShell (nodes : List ConfigNode) : Bool :=
  nodes.any (fun n =>
    (strContains n.FilePath "zprofile" || strContains n.FilePath "zlogin" ||
     strContains n.FilePath "bash_profile") && !n.NotExecuted)

/-- First entry index whose value starts with `pre`, as the Go `-1`
sentinel convention (the Homebrew priority check, lines 803-814). -/
def firstIdxWithPre (entries : List PathEntry) (pre : String) : Int :=
  match entries.findIdx? (fun e => strHasPre e.Value pre) with
  | some i => (i : Int)
  | none => -1

/-- Port of `Analyzer.Analyze` (lines 429-824): reconstruction loop,
duplicate/symlink/existence post-processing, flow-graph attribution,
filter-merge, renumbering, ghost injection, and global diagnostics. -/
def analyze (fs : FS) (events : List TraceEvent) (initialPath : String) :
    AnalysisResult :=
  let st := runEvents events initialPath
  let entries0 := st.currentEntries.map (fun e => { e with SymlinkPointsTo := -1 })
  let entries1 := ppAnalyze fs entries0
  let withEntries := attributeEntries st.flowNodes entries1
  let cleaned := withEntries.foldl filterMerge ([], entries1)
  let clean0 := cleaned.1
  let entries2 := cleaned.2
  let clean1 := clean0.mapIdx (fun i n =>
    { n with Order := (i : Int) + 1
             Description := if n.Description = "" then getPathDescription n.FilePath
                            else n.Description })
  let clean2 := injectMissingNodes clean1
  let cleanNodes := clean2.mapIdx (fun i n => { n with Order := (i : Int) + 1 })
  let diags0 :=
    if isLoginShell cleanNodes then
      ["INFO: Detected as a LOGIN shell. This is typical for terminal startups on macOS."]
    else
      ["INFO: Detected as an INTERACTIVE (non-login) shell."]
  let diags1 := diags0 ++
    ["INFO: Trace Mode - showing PATH derived from shell config files. This is a \"pure\" view of what a fresh terminal would have. Session-specific paths (e.g., activated virtual environments) are not shown."]
  let brewIdx := firstIdxWithPre entries2 "/opt/homebrew"
  let usrLocalIdx := firstIdxWithPre entries2 "/usr/local/bin"
  let diags :=
    if brewIdx ≠ -1 ∧ usrLocalIdx ≠ -1 ∧ usrLocalIdx < brewIdx then
      diags1 ++ ["ADVICE: /usr/local/bin appears before Homebrew in PATH. Brew packages may be shadowed by system-installed ones."]
    else diags1
  { PathEntries := entries2, FlowNodes := cleanNodes, Diagnostics := diags }

/-! ## Session unifier (`AnalyzeUnified`, lines 192-427) -/

/-- One iteration of the post-processing loop of `AnalyzeUnified`
(lines 360-415): identical to `ppStepA` except for the simpler duplicate
message and the absence of remediation advice. -/
def ppStepU (fs : FS) (st : PPState) (e0 : PathEntry) : PPState :=
  let i := st.done.length
  let normalizedPath := expandTilde fs e0.Value
  let (e1, resolvedPath) :=
    match fs.readlink normalizedPath with
    | some target =>
      let absTarget :=
        if goIsAbs target then target
        else goJoin (goDir normalizedPath) target
      let absTarget := goClean absTarget
      ({ e0 with IsSymlink := true
                 SymlinkTarget := absTarget }, absTarget)
    | none => (e0, "")
  let resolvedPath := if resolvedPath = "" then normalizedPath else resolvedPath
  let e2 :=
    match mapLookup st.seen normalizedPath with
    | some firstIdx =>
      let orig := st.done.getD firstIdx {}
      { e1 with
        IsDuplicate := true
        DuplicateOf := firstIdx
        DuplicateMessage := "Duplicates PATH entry #" ++
          toString (firstIdx + 1) ++ " (" ++ orig.Value ++ ")" }
    | none =>
      if e1.IsSymlink then
        match mapLookup st.resolved resolvedPath with
        | some firstIdx =>
          { e1 with
            SymlinkPointsTo := (firstIdx : Int)
            SymlinkMessage := "Symlink resolves to PATH entry #" ++
              toString (firstIdx + 1) ++ " (" ++ e1.SymlinkTarget ++ ")" }
        | none => e1
      else e1
  let (seen', resolved') :=
    if e2.IsDuplicate = false then
      (mapInsert st.seen normalizedPath i, mapInsert st.resolved resolvedPath i)
    else (st.seen, st.resolved)
  let e3 :=
    if fs.statExists normalizedPath then e2
    else { e2 with Diagnostics := e2.Diagnostics ++ ["Directory does not exist on disk."] }
  { done := st.done ++ [e3], seen := seen', resolved := resolved' }

/-- The full `AnalyzeUnified` post-processing pass. -/
def ppUnified (fs : FS) (entries : List PathEntry) : List PathEntry :=
  (entries.foldl (ppStepU fs) ppInit).done

/-- Build one unified entry from one live-PATH directory (lines 218-262):
copy trace attribution when the value was traced (resetting the
recomputed flags), attribute an allow-listed value to the synthetic
system node, otherwise mark it session-only. -/
def unifyOne (traced : List PathEntry) (acc : List PathEntry × List Nat)
    (pathValue : String) : List PathEntry × List Nat :=
  if pathValue = "" then acc
  else
    let ues := acc.1
    let sos := acc.2
    let entryIdx := ues.length
    match traced.find? (fun e => e.Value = pathValue) with
    | some tracedEntry =>
      (ues ++ [{ tracedEntry with
                 SymlinkPointsTo := -1
                 IsDuplicate := false
                 DuplicateOf := 0
                 DuplicateMessage := "" }], sos)
    | none =>
      if isLikelySystemPath pathValue then
        (ues ++ [{ Value := pathValue
                   SourceFile := "System (Default)"
                   LineNumber := 0
                   Mode := "System"
                   IsSessionOnly := false
                   SymlinkPointsTo := -1
                   FlowID := "node-0" }], sos)
      else
        (ues ++ [{ Value := pathValue
                   SourceFile := "Session (Manual/Runtime)"
                   LineNumber := 0
                   Mode := "Session"
                   IsSessionOnly := true
                   SessionNote := "Added manually or by runtime tool (not in shell config)"
                   SymlinkPointsTo := -1
                   FlowID := "session-node" }], sos ++ [entryIdx])

/-- The unified entry list and the session-only index list
(lines 208-263).  `tracedPaths` keyed lookups always hit the first traced
entry of a value, so the map of first entries is modelled by `find?`. -/
def buildUnifiedEntries (traced : List PathEntry) (sessionPath : String) :
    List PathEntry × List Nat :=
  (strSplit sessionPath ':').foldl (unifyOne traced) ([], [])

/-- Remap one flow node's old trace-entry indices to unified indices,
consuming the per-value index queues (lines 294-316). -/
def remapEntries (traced : List PathEntry)
    (acc : List Nat × List (String × List Nat)) (oldIdx : Nat) :
    List Nat × List (String × List Nat) :=
  if oldIdx < traced.length then
    let pathValue := (traced.getD oldIdx {}).Value
    match mapLookup acc.2 pathValue with
    | some (idx0 :: restIdx) =>
      (acc.1 ++ [idx0], mapInsert acc.2 pathValue restIdx)
    | some [] => acc
    | none => acc
  else acc

/-- Port of `Analyzer.AnalyzeUnified` (lines 195-427). -/
def analyzeUnified (fs : FS) (sessionPath : String)
    (events : List TraceEvent) : AnalysisResult :=
  let traceResult := analyze fs events sandboxInitialPath
  let built := buildUnifiedEntries traceResult.PathEntries sessionPath
  let unifiedEntries := built.1
  let sessionOnlyEntries := built.2
  -- value → queue of unified indices, plus allow-listed system additions
  let idxState :=
    unifiedEntries.enum.foldl
      (fun (acc : List (String × List Nat) × List Nat) (p : Nat × PathEntry) =>
        if p.2.IsSessionOnly then acc
        else if p.2.FlowID = "node-0" ∧ p.2.SourceFile = "System (Default)" then
          (acc.1, acc.2 ++ [p.1])
        else
          (mapInsert acc.1 p.2.Value ((mapLookup acc.1 p.2.Value).getD [] ++ [p.1]),
           acc.2))
      ([], [])
  let pathToUnifiedIdx := idxState.1
  let systemNodeEntries := idxState.2
  let flowNodes1 :=
    (traceResult.FlowNodes.foldl
      (fun (acc : List ConfigNode × List (String × List Nat)) node =>
        let r := node.Entries.foldl (remapEntries traceResult.PathEntries) ([], acc.2)
        let newEntries :=
          if node.FilePath = "System (Default)" then r.1 ++ systemNodeEntries
          else r.1
        (acc.1 ++ [{ node with Entries := newEntries }], r.2))
      ([], pathToUnifiedIdx)).1
  let flowNodes2 :=
    if sessionOnlyEntries.length > 0 then
      let sessionNode : ConfigNode :=
        { ID := "session-node"
          FilePath := "Session (Manual/Runtime)"
          Order := 0
          Depth := 0
          Description := "Paths added in this terminal session"
          Entries := sessionOnlyEntries }
      let insertPos :=
        match flowNodes1.findIdx? (fun node => node.FilePath = "System (Default)") with
        | some i => i + 1
        | none => 0
      let inserted :=
        flowNodes1.take insertPos ++ [sessionNode] ++ flowNodes1.drop insertPos
      inserted.mapIdx (fun i n => { n with Order := (i : Int) + 1 })
    else flowNodes1
  let finalEntries := ppUnified fs unifiedEntries
  { PathEntries := finalEntries
    FlowNodes := flowNodes2
    Diagnostics :=
      ["INFO: Unified view - showing your actual PATH with full attribution.",
       "INFO: Entries marked as 'Session' were added manually or by tools (not from shell config files)."] }

/-! ## Derived observers

These definitions do not port additional Go code; they expose intermediate
states of the functions above so that the properties can be stated. -/

/-- Step of `assignmentSnapshots`: run one event and record the snapshot
whenever this event's PATH assignment was accepted (exactly the iterations
in which `Analyze` replaces `currentEntries`, i.e. in which `lastPathStr`
changes). -/
def snapshotStep (acc : AState × List (List PathEntry)) (ev : TraceEvent) :
    AState × List (List PathEntry) :=
  let st' := stepEvent acc.1 ev
  (st', if st'.lastPathStr ≠ acc.1.lastPathStr then acc.2 ++ [st'.currentEntries]
        else acc.2)

/-- The snapshot history of a run: the baseline snapshot followed by the
snapshot produced by each accepted PATH assignment, in order. -/
def assignmentSnapshots (events : List TraceEvent) (initialPath : String) :
    List (List PathEntry) :=
  (events.foldl snapshotStep
    (initState initialPath, [(initState initialPath).currentEntries])).2

/-- Two consecutive snapshots are related by one PATH diff
(`buildNewEntries` with some context). -/
def SnapRel (old new : List PathEntry) : Prop :=
  ∃ file line nodeID evalLine? used ps,
    new = (buildNewEntries old file line nodeID evalLine? used ps).1

/-- The first entry of a snapshot carrying a given value
(the reuse search of lines 607-613). -/
def findByValue (entries : List PathEntry) (v : String) : Option PathEntry :=
  entries.find? (fun curr => curr.Value = v)

/-- The entries of a diffed snapshot that were *not* copied from the
previous snapshot `old` (no entry of `old` carries their value) — the "new
entries created by this PATH change" of claim C3. -/
def freshEntries (old : List PathEntry) (out : List PathEntry) : List PathEntry :=
  out.filter (fun e => old.find? (fun c => c.Value = e.Value) = none)

/-- The single unified entry built for one non-empty live-PATH directory. -/
def mkUnified (traced : List PathEntry) (pathValue : String) : PathEntry :=
  match traced.find? (fun e => e.Value = pathValue) with
  | some tracedEntry =>
    { tracedEntry with
      SymlinkPointsTo := -1
      IsDuplicate := false
      DuplicateOf := 0
      DuplicateMessage := "" }
  | none =>
    if isLikelySystemPath pathValue then
      { Value := pathValue
        SourceFile := "System (Default)"
        LineNumber := 0
        Mode := "System"
        IsSessionOnly := false
        SymlinkPointsTo := -1
        FlowID := "node-0" }
    else
      { Value := pathValue
        SourceFile := "Session (Manual/Runtime)"
        LineNumber := 0
        Mode := "Session"
        IsSessionOnly := true
        SessionNote := "Added manually or by runtime tool (not in shell config)"
        SymlinkPointsTo := -1
        FlowID := "session-node" }

/-- First index `< k` whose entry of `es` has the given tilde-normalized
value (the content of the `seen` map after `k` post-processing steps). -/
def firstNormIdxBelow (fs : FS) (es : List PathEntry) (k : Nat) (v : String) :
    Option Nat :=
  (List.range k).find? (fun i => expandTilde fs ((es.getD i {}).Value) = v)

/-- The tilde-normalized value of the `i`-th entry. -/
def normAt (fs : FS) (es : List PathEntry) (i : Nat) : String :=
  expandTilde fs ((es.getD i {}).Value)

/-- Claim-language predicate for the PATH-assignment detection (written
from the specification's words, *not* from the source, for comparison with
`detectPathChange`): the command contains a `PATH=` token preceded by
start-of-string, whitespace, or a statement separator. -/
def specC6TrueAssignment (cmd : String) : Bool :=
  (List.range (chars cmd).length).any (fun idx =>
    hasPre ((chars cmd).drop idx) (chars "PATH=") &&
    (idx = 0 ||
      (let prev := (chars cmd).getD (idx - 1) ' '
       prev.isWhitespace || prev = ';')))

/-- Value / source-file / line-number view of an entry (the fields claim C1
speaks about; the post-processor and the flow-graph cleanup never modify
them). -/
def proj3 (e : PathEntry) : String × String × Int :=
  (e.Value, e.SourceFile, e.LineNumber)

/-- Value / duplicate-flag / duplicate-index view of an entry
(the fields claim C5 speaks about). -/
def proj5 (e : PathEntry) : String × Bool × Nat :=
  (e.Value, e.IsDuplicate, e.DuplicateOf)

/-- Value / source-file / session-only view of an entry (the fields claim
C9 speaks about). -/
def proj9 (e : PathEntry) : String × String × Bool :=
  (e.Value, e.SourceFile, e.IsSessionOnly)

/-- All fields of an entry that the consistency post-processor never
writes (everything but the duplicate / symlink / diagnostics bookkeeping). -/
def coreFields (e : PathEntry) : String × String × Int × String × Bool × String × String :=
  (e.Value, e.SourceFile, e.LineNumber, e.Mode, e.IsSessionOnly, e.SessionNote, e.FlowID)

/-- One-level symlink resolution as performed by the post-processing loop
(lines 664-679): the readlink target, made absolute against the symlink's
parent directory when relative, then cleaned. -/
def resolveOneLevel (fs : FS) (norm : String) : Option String :=
  (fs.readlink norm).map (fun target =>
    goClean (if goIsAbs target then target else goJoin (goDir norm) target))

/-- Value / duplicate-flag / symlink-flag / symlink-index view of an entry
(the fields claim C8 speaks about). -/
def proj8 (e : PathEntry) : String × Bool × Bool × Int :=
  (e.Value, e.IsDuplicate, e.IsSymlink, e.SymlinkPointsTo)

/-- Oracle for the C8 scenario: `/b` is a symlink to `/a`, every directory
exists, no home directory. -/
def c8fs : FS :=
  { readlink := fun p => if p = "/b" then some "/a" else none
    statExists := fun _ => true
    homeDir := none }

/-- A trace event whose PATH value repeats its first segment at the end
(`PATH=/a:/b:/a`). -/
def c5Event : TraceEvent :=
  { File := "/etc/zshrc"
    Line := 3
    RawCommand := "export PATH=/a:/b:/a"
    PathChange := "/a:/b:/a" }

/-- A trace event whose PATH value repeats one segment three times
(`PATH=/a:/a:/a`). -/
def c5TripleEvent : TraceEvent :=
  { File := "/etc/zshrc"
    Line := 3
    RawCommand := "export PATH=/a:/a:/a"
    PathChange := "/a:/a:/a" }

/-- A trace event setting `PATH=/a:/b` (the C8 symlink scenario). -/
def c8Event : TraceEvent :=
  { File := "/etc/zshrc"
    Line := 3
    RawCommand := "export PATH=/a:/b"
    PathChange := "/a:/b" }

/-! ## Lemmas: the post-processors only touch bookkeeping fields -/

theorem ppStepA_core (fs : FS) (st : PPState) (e : PathEntry) :
    ∃ e', (ppStepA fs st e).done = st.done ++ [e'] ∧ coreFields e' = coreFields e := by
  refine ⟨_, rfl, ?_⟩
  cases h1 : fs.readlink (expandTilde fs e.Value) <;> simp only [h1] <;>
    (repeat' split) <;> rfl

theorem ppStepU_core (fs : FS) (st : PPState) (e : PathEntry) :
    ∃ e', (ppStepU fs st e).done = st.done ++ [e'] ∧ coreFields e' = coreFields e := by
  refine ⟨_, rfl, ?_⟩
  cases h1 : fs.readlink (expandTilde fs e.Value) <;> simp only [h1] <;>
    (repeat' split) <;> rfl

theorem ppFoldA_core (fs : FS) (es : List PathEntry) (st : PPState) :
    ((es.foldl (ppStepA fs) st).done).map coreFields =
      st.done.map coreFields ++ es.map coreFields := by
  induction es generalizing st with
  | nil => simp
  | cons e rest ih =>
    obtain ⟨e', hd, hc⟩ := ppStepA_core fs st e
    rw [List.foldl_cons, ih (ppStepA fs st e), hd]
    simp [hc]

theorem ppFoldU_core (fs : FS) (es : List PathEntry) (st : PPState) :
    ((es.foldl (ppStepU fs) st).done).map coreFields =
      st.done.map coreFields ++ es.map coreFields := by
  induction es generalizing st with
  | nil => simp
  | cons e rest ih =>
    obtain ⟨e', hd, hc⟩ := ppStepU_core fs st e
    rw [List.foldl_cons, ih (ppStepU fs st e), hd]
    simp [hc]

theorem ppAnalyze_core (fs : FS) (es : List PathEntry) :
    (ppAnalyze fs es).map coreFields = es.map coreFields := by
  simpa [ppAnalyze, ppInit] using ppFoldA_core fs es ppInit

theorem ppUnified_core (fs : FS) (es : List PathEntry) :
    (ppUnified fs es).map coreFields = es.map coreFields := by
  simpa [ppUnified, ppInit] using ppFoldU_core fs es ppInit

theorem map_core_proj3 {l l' : List PathEntry}
    (h : l.map coreFields = l'.map coreFields) : l.map proj3 = l'.map proj3 := by
  have key : ∀ (x : List PathEntry),
      x.map proj3 = (x.map coreFields).map (fun t => (t.1, t.2.1, t.2.2.1)) := by
    intro x; rw [List.map_map]; rfl
  rw [key, key, h]

theorem map_core_proj9 {l l' : List PathEntry}
    (h : l.map coreFields = l'.map coreFields) : l.map proj9 = l'.map proj9 := by
  have key : ∀ (x : List PathEntry),
      x.map proj9 = (x.map coreFields).map (fun t => (t.1, t.2.1, t.2.2.2.2.1)) := by
    intro x; rw [List.map_map]; rfl
  rw [key, key, h]

/-! ## Lemmas: the flow-graph cleanup only rewrites `FlowID` -/

theorem setFlowIDsFrom_map {β : Type} (f : PathEntry → β)
    (hf : ∀ e id, f { e with FlowID := id } = f e) (i0 : Nat)
    (es : List PathEntry) (idxs : List Nat) (id : String) :
    (setFlowIDsFrom i0 es idxs id).map f = es.map f := by
  induction es generalizing i0 with
  | nil => rfl
  | cons e rest ih =>
    simp only [setFlowIDsFrom, List.map_cons, ih]
    split
    · rw [hf]
    · rfl

theorem filterMerge_snd_map {β : Type} (f : PathEntry → β)
    (hf : ∀ e id, f { e with FlowID := id } = f e) :
    ∀ (nodes : List ConfigNode) (accN : List ConfigNode) (es : List PathEntry),
      ((nodes.foldl filterMerge (accN, es)).2).map f = es.map f := by
  intro nodes
  induction nodes with
  | nil => intro accN es; rfl
  | cons node rest ih =>
    intro accN es
    have h2 : (filterMerge (accN, es) node).2.map f = es.map f := by
      unfold filterMerge
      (repeat' split) <;>
        simp [setFlowIDs, setFlowIDsFrom_map f hf]
    rw [List.foldl_cons]
    have := ih (filterMerge (accN, es) node).1 (filterMerge (accN, es) node).2
    rw [Prod.mk.eta] at this
    rw [this, h2]

/-- The entry list returned by `Analyze` agrees with the final
reconstruction snapshot on value, source file and line number. -/
theorem analyze_map_proj3 (fs : FS) (events : List TraceEvent) (initialPath : String) :
    (analyze fs events initialPath).PathEntries.map proj3 =
      ((runEvents events initialPath).currentEntries).map proj3 := by
  show ((attributeEntries (runEvents events initialPath).flowNodes
      (ppAnalyze fs (provisionalEntries events initialPath))).foldl filterMerge
      ([], ppAnalyze fs (provisionalEntries events initialPath))).2.map proj3 = _
  rw [filterMerge_snd_map proj3 (fun e id => rfl)]
  rw [map_core_proj3 (ppAnalyze_core fs (provisionalEntries events initialPath))]
  show ((runEvents events initialPath).currentEntries.map
      (fun e => { e with SymlinkPointsTo := -1 })).map proj3 = _
  rw [List.map_map]
  rfl

/-! ## Lemmas about the substring index -/

theorem listIdxSub_le (hay needle : List Char) (idx : Nat)
    (h : listIdxSub hay needle = some idx) : idx ≤ hay.length := by
  induction hay generalizing idx with
  | nil =>
    unfold listIdxSub at h
    split at h
    · exact (Option.some.inj h) ▸ Nat.le_refl 0
    · exact absurd h (Option.noConfusion)
  | cons c t ih =>
    unfold listIdxSub at h
    split at h
    · simp only [Option.some.injEq] at h
      omega
    · rcases Option.map_eq_some'.mp h with ⟨j, hj, rfl⟩
      have := ih j hj
      simp only [List.length_cons]
      omega

/-- A character list ending with `"export "` has a space as its last
character. -/
theorem hasSuf_export_last (l : List Char) (h : hasSuf l (chars "export ") = true) :
    l.getD (l.length - 1) ' ' = ' ' := by
  have hsuf : chars "export " <:+ l := by simpa [hasSuf] using h
  obtain ⟨t, rfl⟩ := hsuf
  have hlen : (t ++ chars "export ").length = t.length + 7 := by
    simp [chars]
  rw [hlen]
  have h7 : t.length + 7 - 1 = t.length + 6 := by omega
  rw [h7]
  rw [List.getD_eq_getElem?_getD, List.getElem?_append_right (by omega)]
  simp [chars]

theorem take_getD_last (cs : List Char) (idx : Nat) (hne : idx ≠ 0) :
    (cs.take idx).getD (idx - 1) ' ' = cs.getD (idx - 1) ' ' := by
  rw [List.getD_eq_getElem?_getD, List.getD_eq_getElem?_getD,
      List.getElem?_take]
  rw [if_pos (by omega)]

/-! ## Claim theorems -/

/-- C1 (confirmed).  For the baseline PATH `"/usr/bin:/bin"` and exactly
one trace event in file `/etc/zprofile`, line 5, whose detected PATH change
is `"/usr/bin:/bin:/opt/tool"` (for every raw command text and every
filesystem), `Analyze` returns exactly three entries in order:
`/usr/bin` and `/bin` attributed to `System (Default)` at line 0, then
`/opt/tool` attributed to `/etc/zprofile` at line 5. -/
theorem c1_baseline_scenario_attribution (fs : FS) (raw : String) :
    (analyze fs [{ File := "/etc/zprofile", Line := 5, RawCommand := raw,
                   PathChange := "/usr/bin:/bin:/opt/tool" }]
      "/usr/bin:/bin").PathEntries.map proj3 =
    [("/usr/bin", "System (Default)", 0), ("/bin", "System (Default)", 0),
     ("/opt/tool", "/etc/zprofile", 5)] := by
  rw [analyze_map_proj3]
  cases h : hasEvalSubst raw <;>
    simp only [runEvents, List.foldl, stepEvent, evalStep, nodeStep, diffStep, h] <;>
    decide

/-- C10 (confirmed).  `Analyze` on an empty event list and empty baseline
returns no path entries but a flow graph holding the complete canonical
zsh configuration file list, every node a `NotExecuted` placeholder with
empty entry list and orders numbered contiguously from 1. -/
theorem c10_empty_input (fs : FS) :
    (analyze fs [] "").PathEntries = [] ∧
    (analyze fs [] "").FlowNodes.map
      (fun n => (n.FilePath, n.NotExecuted, n.Entries, n.Order)) =
    [("/etc/zshenv", true, [], 1), ("~/.zshenv", true, [], 2),
     ("/etc/zprofile", true, [], 3), ("~/.zprofile", true, [], 4),
     ("/etc/zshrc", true, [], 5), ("~/.zshrc", true, [], 6),
     ("/etc/zlogin", true, [], 7), ("~/.zlogin", true, [], 8)] :=
  ⟨rfl, rfl⟩

/-- C6 (counterexample).  The command `";PATH=/x"` contains a `PATH=` token
preceded by the statement separator `';'` — a true assignment in the
claim's sense — yet the parser's detection yields an empty path change, so
"non-empty exactly when ... preceded by start-of-string, whitespace, or a
statement separator" is false. -/
theorem c6_path_assignment_counterexample :
    ¬((detectPathChange ";PATH=/x" ≠ "") ↔
      specC6TrueAssignment ";PATH=/x" = true) := by
  decide

/-- C6 (amended).  The emitted path change is non-empty exactly when the
*first* occurrence of `"PATH="` in the command is at the start of the
string or directly preceded by a space character, and the quote-stripped
text after the `=` is itself non-empty; in that case the value is exactly
that quote-stripped text.  (A tab or a statement separator directly before
`PATH=`, or a first occurrence that is the suffix of another identifier,
yields an empty path change.) -/
theorem c6_path_assignment_amended (cmd : String) :
    (detectPathChange cmd ≠ "" ↔
      ∃ idx, listIdxSub (chars cmd) (chars "PATH=") = some idx ∧
        (idx = 0 ∨ (chars cmd).getD (idx - 1) ' ' = ' ') ∧
        cleanPathValue (ofChars ((chars cmd).drop (idx + 5))) ≠ "") ∧
    (∀ idx, listIdxSub (chars cmd) (chars "PATH=") = some idx →
      (idx = 0 ∨ (chars cmd).getD (idx - 1) ' ' = ' ') →
      detectPathChange cmd = cleanPathValue (ofChars ((chars cmd).drop (idx + 5)))) := by
  cases h : listIdxSub (chars cmd) (chars "PATH=") with
  | none =>
    constructor
    · simp [detectPathChange, h]
    · intro idx hidx
      exact absurd hidx (by simp [h])
  | some idx =>
    have hle : idx ≤ (chars cmd).length := listIdxSub_le _ _ _ h
    have hred : detectPathChange cmd =
        if (if idx = 0 then true
            else
              if (chars cmd).getD (idx - 1) ' ' = ' ' ∨
                  hasSuf ((chars cmd).take idx) (chars "export ") then
                if (chars cmd).getD (idx - 1) ' ' ≠ ' ' then
                  decide ((chars cmd).getD (idx - 1) ' ' = ' ' ∨
                    (chars cmd).getD (idx - 1) ' ' = ';')
                else true
              else false) = true
        then cleanPathValue (ofChars ((chars cmd).drop (idx + 5))) else "" := by
      simp only [detectPathChange, h]
    by_cases hcond : idx = 0 ∨ (chars cmd).getD (idx - 1) ' ' = ' '
    · have hv : (if idx = 0 then true
        else
          if (chars cmd).getD (idx - 1) ' ' = ' ' ∨
              hasSuf ((chars cmd).take idx) (chars "export ") then
            if (chars cmd).getD (idx - 1) ' ' ≠ ' ' then
              decide ((chars cmd).getD (idx - 1) ' ' = ' ' ∨
                (chars cmd).getD (idx - 1) ' ' = ';')
            else true
          else false) = true := by
        rcases hcond with h0 | hsp
        · simp [h0]
        · by_cases h0 : idx = 0
          · simp [h0]
          · simp only [if_neg h0, hsp]
            simp
      rw [hred, hv, if_pos rfl]
      constructor
      · constructor
        · intro hne
          exact ⟨idx, rfl, hcond, hne⟩
        · rintro ⟨idx', hidx', _, hne⟩
          obtain rfl : idx = idx' := Option.some.inj hidx'
          exact hne
      · intro idx' hidx' _
        obtain rfl : idx = idx' := Option.some.inj hidx'
        rfl
    · push_neg at hcond
      obtain ⟨h0, hsp⟩ := hcond
      have hsufF : hasSuf ((chars cmd).take idx) (chars "export ") = false := by
        by_contra hx
        have hx' : hasSuf ((chars cmd).take idx) (chars "export ") = true := by
          revert hx; cases hasSuf ((chars cmd).take idx) (chars "export ") <;> simp
        have hlast := hasSuf_export_last _ hx'
        rw [List.length_take, Nat.min_eq_left hle, take_getD_last _ _ h0] at hlast
        exact hsp hlast
      have hA : ¬((chars cmd).getD (idx - 1) ' ' = ' ' ∨
          hasSuf ((chars cmd).take idx) (chars "export ") = true) := by
        rintro (hca | hcb)
        · exact hsp hca
        · rw [hsufF] at hcb
          exact absurd hcb (by simp)
      have hv : (if idx = 0 then true
        else
          if (chars cmd).getD (idx - 1) ' ' = ' ' ∨
              hasSuf ((chars cmd).take idx) (chars "export ") then
            if (chars cmd).getD (idx - 1) ' ' ≠ ' ' then
              decide ((chars cmd).getD (idx - 1) ' ' = ' ' ∨
                (chars cmd).getD (idx - 1) ' ' = ';')
            else true
          else false) = false := by
        rw [if_neg h0, if_neg hA]
      rw [hred]
      simp only [hv, Bool.false_eq_true, if_false]
      constructor
      · constructor
        · intro hne
          exact absurd rfl hne
        · rintro ⟨idx', hidx', hc', _⟩
          obtain rfl : idx = idx' := Option.some.inj hidx'
          rcases hc' with hca | hcb
          · exact absurd hca h0
          · exact absurd hcb hsp
      · intro idx' hidx' hc'
        obtain rfl : idx = idx' := Option.some.inj hidx'
        rcases hc' with hca | hcb
        · exact absurd hca h0
        · exact absurd hcb hsp

/-- Witness for C6: the amended characterization applied to
`"export PATH='/x'"` (first occurrence of `PATH=` at index 7, preceded by
a space) produces the quote-stripped value `/x`. -/
theorem c6_path_assignment_witness : detectPathChange "export PATH='/x'" = "/x" := by
  rw [(c6_path_assignment_amended "export PATH='/x'").2 7 (by decide) (by decide)]
  decide

/-- C7 (counterexample).  The all-digit line-number field
`99999999999999999999` fails 64-bit integer parsing, and the parser emits
its trace event with `Line` equal to the clamped maximum `2^63 - 1`, not
0 as the claim states. -/
theorem c7_malformed_line_counterexample :
    isDigits (chars "99999999999999999999") = true ∧
    2 ^ 63 - 1 < digitsToNat (chars "99999999999999999999") ∧
    (parseMatched "/etc/zshrc" (chars "99999999999999999999") "echo hi").Line ≠ 0 := by
  refine ⟨by decide, by decide, by decide⟩

/-- C7 (amended).  For every matched trace line whose all-digit line-number
field exceeds the 64-bit integer range (the only way `strconv.Atoi` can
fail on a `\d+` capture), the parser still emits a `TraceEvent` — the run
never aborts — with `Line` equal to the clamped maximum `2^63 - 1`
(not 0). -/
theorem c7_malformed_line_amended (f : String) (lineS : List Char) (c : String)
    (hdig : isDigits lineS = true) (hbig : 2 ^ 63 - 1 < digitsToNat lineS) :
    parseMatched f lineS c =
      { File := f, Line := ((2 : Int) ^ 63 - 1), RawCommand := c,
        PathChange := detectPathChange c } := by
  unfold parseMatched goAtoi
  rw [if_pos hbig]

/-- Witness for C7: the amended theorem applied to a concrete overflowing
line number. -/
theorem c7_malformed_line_witness :
    parseMatched "/etc/zshrc" (chars "99999999999999999999") "echo hi" =
      { File := "/etc/zshrc", Line := 9223372036854775807,
        RawCommand := "echo hi", PathChange := "" } := by
  rw [c7_malformed_line_amended _ _ _ (by decide) (by decide)]
  decide


/-! ## Lemmas for the eval-attribution rule (C3) -/

theorem buildNewEntries_nil (old : List PathEntry) (file : String) (line : Int)
    (nodeID : String) (el? : Option Int) (used : Bool) :
    buildNewEntries old file line nodeID el? used [] = ([], used) := rfl

theorem buildNewEntries_cons (old : List PathEntry) (file : String) (line : Int)
    (nodeID : String) (el? : Option Int) (used : Bool) (p : String)
    (rest : List String) :
    buildNewEntries old file line nodeID el? used (p :: rest) =
    (if p = "" then buildNewEntries old file line nodeID el? used rest
     else
       match old.find? (fun curr => curr.Value = p) with
       | some e =>
         let r := buildNewEntries old file line nodeID el? used rest
         (e :: r.1, r.2)
       | none =>
         let lu : Int × Bool :=
           match el? with
           | some evalLine =>
             if used = false ∧ evalLine < line then (evalLine, true)
             else (line, used)
           | none => (line, used)
         let r := buildNewEntries old file line nodeID el? lu.2 rest
         (mkFreshEntry p file lu.1 nodeID :: r.1, r.2)) := rfl

/-- The first match of the value search also answers the search keyed by
the found entry's own value. -/
theorem find?_value_shift (old : List PathEntry) (p : String) (e : PathEntry)
    (h : old.find? (fun c => c.Value = p) = some e) :
    e.Value = p ∧ old.find? (fun c => c.Value = e.Value) = some e := by
  have hv : e.Value = p := by
    have := List.find?_some h
    simpa using this
  exact ⟨hv, hv ▸ h⟩

/-- Once the per-file eval flag is set, every fresh entry of the diff gets
the event's literal line, and the flag stays set. -/
theorem buildNew_used_true (old : List PathEntry) (file : String) (line : Int)
    (nodeID : String) (el : Int) (ps : List String) :
    (∀ e ∈ (buildNewEntries old file line nodeID (some el) true ps).1,
       old.find? (fun c => c.Value = e.Value) = none → e.LineNumber = line) ∧
    (buildNewEntries old file line nodeID (some el) true ps).2 = true := by
  induction ps with
  | nil => exact ⟨fun e he => absurd he (by simp [buildNewEntries_nil]), rfl⟩
  | cons p rest ih =>
    rw [buildNewEntries_cons]
    by_cases hp : p = ""
    · simpa [hp] using ih
    · rw [if_neg hp]
      cases hf : old.find? (fun c => c.Value = p) with
      | some e0 =>
        simp only []
        refine ⟨?_, ih.2⟩
        intro e he hnone
        simp only [List.mem_cons] at he
        rcases he with rfl | he
        · obtain ⟨_, hf2⟩ := find?_value_shift old p e hf
          rw [hf2] at hnone
          exact absurd hnone (by simp)
        · exact ih.1 e he hnone
      | none =>
        simp only []
        refine ⟨?_, ih.2⟩
        intro e he hnone
        simp only [List.mem_cons] at he
        rcases he with rfl | he
        · rfl
        · exact ih.1 e he hnone

/-- C3 (counterexample).  With an eval recorded at line 2 of `/f` and the
first subsequent PATH change at line 10 creating the two new entries `/a`
and `/b`, only `/a` is attributed to the eval's line 2; `/b` keeps the
literal line 10, so "the new entries created by the first subsequent PATH
change … are attributed to the eval's line number" fails for `/b`. -/
theorem c3_eval_attribution_counterexample :
    (analyze trivFS
      [{ File := "/f", Line := 2, RawCommand := "eval \"$(foo)\"", PathChange := "" },
       { File := "/f", Line := 10, RawCommand := "PATH=/a:/b", PathChange := "/a:/b" }]
      "").PathEntries.map proj3 = [("/a", "/f", 2), ("/b", "/f", 10)] ∧
    ((analyze trivFS
      [{ File := "/f", Line := 2, RawCommand := "eval \"$(foo)\"", PathChange := "" },
       { File := "/f", Line := 10, RawCommand := "PATH=/a:/b", PathChange := "/a:/b" }]
      "").PathEntries.getD 1 {}).LineNumber ≠ 2 := by
  refine ⟨by decide, by decide⟩

/-- C3 (amended).  When an unused eval with command substitution is
recorded for the current file on a strictly earlier line, only the *first*
entry of the next PATH change that is not copied from the previous
snapshot is attributed to the eval's line; the eval is marked used by that
very entry, so every later fresh entry — including the remaining fresh
entries of the *same* change — gets its literal line number.  The used
flag is set exactly when the change created at least one fresh entry. -/
theorem c3_eval_attribution_amended (old : List PathEntry) (file : String)
    (line : Int) (nodeID : String) (evalLine : Int) (ps : List String)
    (hel : evalLine < line) :
    (∀ e ∈ (freshEntries old
        (buildNewEntries old file line nodeID (some evalLine) false ps).1).head?,
      e.LineNumber = evalLine) ∧
    (∀ e ∈ (freshEntries old
        (buildNewEntries old file line nodeID (some evalLine) false ps).1).tail,
      e.LineNumber = line) ∧
    (buildNewEntries old file line nodeID (some evalLine) false ps).2 =
      !(freshEntries old
        (buildNewEntries old file line nodeID (some evalLine) false ps).1).isEmpty := by
  induction ps with
  | nil =>
    refine ⟨?_, ?_, ?_⟩ <;> simp [buildNewEntries_nil, freshEntries]
  | cons p rest ih =>
    rw [buildNewEntries_cons]
    by_cases hp : p = ""
    · simpa [hp] using ih
    · rw [if_neg hp]
      cases hf : old.find? (fun c => c.Value = p) with
      | some e0 =>
        obtain ⟨hv, hf2⟩ := find?_value_shift old p e0 hf
        have hfresh : freshEntries old
            (e0 :: (buildNewEntries old file line nodeID (some evalLine) false rest).1) =
            freshEntries old
              (buildNewEntries old file line nodeID (some evalLine) false rest).1 := by
          unfold freshEntries
          rw [List.filter_cons]
          rw [if_neg (by simp [hf2])]
        dsimp only
        rw [hfresh]
        exact ih
      | none =>
        dsimp only
        rw [if_pos (show ((false : Bool) = false) ∧ evalLine < line from ⟨rfl, hel⟩)]
        dsimp only
        have hfnone : old.find?
            (fun c => c.Value = (mkFreshEntry p file evalLine nodeID).Value) = none := by
          simpa [mkFreshEntry] using hf
        have hfresh : freshEntries old
            ((mkFreshEntry p file evalLine nodeID) ::
              (buildNewEntries old file line nodeID (some evalLine) true rest).1) =
            (mkFreshEntry p file evalLine nodeID) ::
              freshEntries old
                (buildNewEntries old file line nodeID (some evalLine) true rest).1 := by
          unfold freshEntries
          rw [List.filter_cons]
          rw [if_pos (by simp [hfnone])]
        rw [hfresh]
        obtain ⟨hT1, hT2⟩ := buildNew_used_true old file line nodeID evalLine rest
        refine ⟨?_, ?_, ?_⟩
        · intro e he
          simp only [List.head?_cons, Option.mem_def, Option.some.injEq] at he
          rw [← he]
          rfl
        · intro e he
          simp only [List.tail_cons] at he
          have hmem : e ∈ (buildNewEntries old file line nodeID (some evalLine) true rest).1 :=
            (List.mem_filter.mp he).1
          have hnone : old.find? (fun c => c.Value = e.Value) = none := by
            have := (List.mem_filter.mp he).2
            simpa [freshEntries] using this
          exact hT1 e hmem hnone
        · simp [hT2]

/-- Witness for C3: for the change `/a:/b` over an empty snapshot with an
eval recorded at line 2 and the event at line 10, the first fresh entry is
attributed to line 2. -/
theorem c3_eval_attribution_witness :
    ((freshEntries []
        (buildNewEntries [] "/f" 10 "n" (some 2) false ["/a", "/b"]).1).head?.getD
      {}).LineNumber = 2 := by
  apply (c3_eval_attribution_amended [] "/f" 10 "n" 2 ["/a", "/b"] (by decide)).1
  decide


/-! ## Lemmas for ghost-node injection (C4) -/

theorem fillGaps_subset (stds : List StdConfig) (r : Nat) :
    ∀ s ∈ (fillGaps stds r).2, s ∈ stds := by
  induction stds with
  | nil => intro s hs; exact absurd hs (by simp [fillGaps])
  | cons s0 rest ih =>
    intro s hs
    unfold fillGaps at hs
    split at hs
    · exact List.mem_cons_of_mem s0 (ih s hs)
    · split at hs
      · exact List.mem_cons_of_mem s0 hs
      · exact hs

theorem fillGaps_cover (stds : List StdConfig) (r : Nat) :
    ∀ s ∈ stds, ghostNode s ∈ (fillGaps stds r).1 ∨ s.Rank = r ∨
      s ∈ (fillGaps stds r).2 := by
  induction stds with
  | nil => intro s hs; exact absurd hs (by simp)
  | cons s0 rest ih =>
    intro s hs
    unfold fillGaps
    split
    · rcases List.mem_cons.mp hs with rfl | hs'
      · exact Or.inl (List.mem_cons_self _ _)
      · rcases ih s hs' with hg | hr | hrem
        · exact Or.inl (List.mem_cons_of_mem _ hg)
        · exact Or.inr (Or.inl hr)
        · exact Or.inr (Or.inr hrem)
    · split
      · rcases List.mem_cons.mp hs with rfl | hs'
        · rename_i hlt heq
          exact Or.inr (Or.inl heq)
        · exact Or.inr (Or.inr hs')
      · exact Or.inr (Or.inr hs)

theorem injectLoop_cover (full : List StdConfig) :
    ∀ (nodes : List ConfigNode) (stds : List StdConfig),
      (∀ s ∈ stds, getRank full (ghostNode s).FilePath = s.Rank) →
      ∀ s ∈ stds, ∃ node ∈ injectLoop full stds nodes,
        getRank full node.FilePath = s.Rank := by
  intro nodes
  induction nodes with
  | nil =>
    intro stds hG s hs
    exact ⟨ghostNode s, by simpa [injectLoop] using List.mem_map_of_mem ghostNode hs,
      hG s hs⟩
  | cons node rest ih =>
    intro stds hG s hs
    unfold injectLoop
    dsimp only
    by_cases hr999 : getRank full node.FilePath ≠ 999
    · rw [if_pos hr999]
      rcases fillGaps_cover stds (getRank full node.FilePath) s hs with hg | hr | hrem
      · exact ⟨ghostNode s, by simp [hg], hG s hs⟩
      · exact ⟨node, by simp, hr.symm⟩
      · obtain ⟨n, hn, hnr⟩ := ih (fillGaps stds (getRank full node.FilePath)).2
          (fun s' hs' => hG s' (fillGaps_subset _ _ s' hs')) s hrem
        exact ⟨n, by simp [hn], hnr⟩
    · rw [if_neg hr999]
      obtain ⟨n, hn, hnr⟩ := ih stds hG s hs
      exact ⟨n, List.mem_cons_of_mem _ hn, hnr⟩

theorem ghost_rank_zsh :
    ∀ s ∈ zshStandard, getRank zshStandard (ghostNode s).FilePath = s.Rank := by
  decide

theorem ghost_rank_bash :
    ∀ s ∈ bashStandard, getRank bashStandard (ghostNode s).FilePath = s.Rank := by
  decide

/-- C4 (amended).  After flow-graph cleanup and gap injection, every
canonical configuration file of the detected shell family appears at
least once in the final node sequence, as a real node or as a
`NotExecuted` placeholder — never zero times.  ("Exactly once" fails: see
the counterexample, where a canonical file revisited after a
higher-ranked one yields two rank-6 nodes.) -/
theorem c4_ghost_injection_amended (nodes : List ConfigNode) (s : StdConfig)
    (hs : s ∈ (if detectShellFromNodes nodes = "bash" then bashStandard
               else zshStandard)) :
    ∃ node ∈ injectMissingNodes nodes,
      getRank (if detectShellFromNodes nodes = "bash" then bashStandard
               else zshStandard) node.FilePath = s.Rank := by
  unfold injectMissingNodes
  by_cases hdet : detectShellFromNodes nodes = "bash"
  · rw [if_pos hdet] at hs ⊢
    exact injectLoop_cover bashStandard nodes bashStandard ghost_rank_bash s hs
  · rw [if_neg hdet] at hs ⊢
    exact injectLoop_cover zshStandard nodes zshStandard ghost_rank_zsh s hs

/-- C4 (counterexample).  A trace that runs `~/.zshrc`, then another
script, then `~/.zshrc` again produces two flow nodes matching canonical
rank 6 (`/.zshrc`) after gap injection, so "each canonical configuration
file appears exactly once" is false. -/
theorem c4_ghost_injection_counterexample :
    ((analyze trivFS
      [{ File := "/h/.zshrc", Line := 1, RawCommand := "PATH=/a", PathChange := "/a" },
       { File := "/h/other.sh", Line := 1, RawCommand := "PATH=/a:/b", PathChange := "/a:/b" },
       { File := "/h/.zshrc", Line := 3, RawCommand := "PATH=/a:/b:/c", PathChange := "/a:/b:/c" }]
      "").FlowNodes.filter
        (fun n => getRank zshStandard n.FilePath = 6)).length = 2 := by
  decide

/-- Witness for C4: on the empty node list (detected family zsh),
`/etc/zshenv` (rank 1) appears in the injected sequence. -/
theorem c4_ghost_injection_witness :
    (⟨"/etc/zshenv", 1⟩ : StdConfig) ∈
      (if detectShellFromNodes [] = "bash" then bashStandard else zshStandard) ∧
    ∃ node ∈ injectMissingNodes [],
      getRank (if detectShellFromNodes [] = "bash" then bashStandard
               else zshStandard) node.FilePath = (⟨"/etc/zshenv", 1⟩ : StdConfig).Rank :=
  ⟨by decide, c4_ghost_injection_amended [] ⟨"/etc/zshenv", 1⟩ (by decide)⟩


/-! ## Lemmas for attribution stability (C2) -/

theorem evalStep_pres (st : AState) (ev : TraceEvent) :
    (evalStep st ev).currentEntries = st.currentEntries ∧
    (evalStep st ev).lastPathStr = st.lastPathStr := by
  unfold evalStep
  split <;> exact ⟨rfl, rfl⟩

theorem nodeStep_pres (st : AState) (ev : TraceEvent) :
    (nodeStep st ev).currentEntries = st.currentEntries ∧
    (nodeStep st ev).lastPathStr = st.lastPathStr := by
  unfold nodeStep
  (repeat' split) <;> exact ⟨rfl, rfl⟩

theorem diffStep_snapshot (st : AState) (ev : TraceEvent) :
    ((diffStep st ev).lastPathStr = st.lastPathStr ∧
     (diffStep st ev).currentEntries = st.currentEntries) ∨
    ((diffStep st ev).lastPathStr ≠ st.lastPathStr ∧
     SnapRel st.currentEntries (diffStep st ev).currentEntries) := by
  unfold diffStep
  split
  · rename_i hcond
    exact Or.inr ⟨hcond.2, ev.File, ev.Line, _, _, _, _, rfl⟩
  · exact Or.inl ⟨rfl, rfl⟩

/-- One event either leaves the snapshot and last PATH string unchanged,
or changes the last PATH string and produces the new snapshot by one
PATH diff over the old one. -/
theorem stepEvent_snapshot (st : AState) (ev : TraceEvent) :
    ((stepEvent st ev).lastPathStr = st.lastPathStr ∧
     (stepEvent st ev).currentEntries = st.currentEntries) ∨
    ((stepEvent st ev).lastPathStr ≠ st.lastPathStr ∧
     SnapRel st.currentEntries (stepEvent st ev).currentEntries) := by
  obtain ⟨hc1, hl1⟩ := evalStep_pres st ev
  obtain ⟨hc2, hl2⟩ := nodeStep_pres (evalStep st ev) ev
  have hC : (nodeStep (evalStep st ev) ev).currentEntries = st.currentEntries := by
    rw [hc2, hc1]
  have hL : (nodeStep (evalStep st ev) ev).lastPathStr = st.lastPathStr := by
    rw [hl2, hl1]
  rcases diffStep_snapshot (nodeStep (evalStep st ev) ev) ev with ⟨d1, d2⟩ | ⟨d1, d2⟩
  · exact Or.inl ⟨by rw [stepEvent, d1, hL], by rw [stepEvent, d2, hC]⟩
  · refine Or.inr ⟨by rw [stepEvent] at *; rw [← hL]; exact d1, ?_⟩
    rw [stepEvent, ← hC]
    exact d2


theorem snapshotFold_inv (events : List TraceEvent) :
    ∀ (st : AState) (hist : List (List PathEntry)),
      hist.getLast? = some st.currentEntries →
      List.Chain' SnapRel hist →
      ((events.foldl snapshotStep (st, hist)).2.getLast? =
        some (events.foldl snapshotStep (st, hist)).1.currentEntries ∧
       List.Chain' SnapRel (events.foldl snapshotStep (st, hist)).2) := by
  induction events with
  | nil => exact fun st hist h1 h2 => ⟨h1, h2⟩
  | cons ev rest ih =>
    intro st hist h1 h2
    rw [List.foldl_cons]
    rcases stepEvent_snapshot st ev with ⟨hL, hE⟩ | ⟨hL, hrel⟩
    · have hstep : snapshotStep (st, hist) ev = (stepEvent st ev, hist) := by
        simp only [snapshotStep]
        rw [if_neg (by simp [hL])]
      rw [hstep]
      exact ih _ _ (by rw [hE]; exact h1) h2
    · have hstep : snapshotStep (st, hist) ev =
          (stepEvent st ev, hist ++ [(stepEvent st ev).currentEntries]) := by
        show (stepEvent st ev,
          if (stepEvent st ev).lastPathStr ≠ st.lastPathStr then
            hist ++ [(stepEvent st ev).currentEntries] else hist) = _
        rw [if_pos hL]
      rw [hstep]
      apply ih
      · simp
      · refine List.chain'_append.mpr ⟨h2, List.chain'_singleton _, ?_⟩
        intro x hx y hy
        rw [h1] at hx
        simp only [Option.mem_def, Option.some.injEq] at hx
        simp only [List.head?_cons, Option.mem_def, Option.some.injEq] at hy
        rw [← hx, ← hy]
        exact hrel

theorem assignmentSnapshots_chain (events : List TraceEvent) (initialPath : String) :
    List.Chain' SnapRel (assignmentSnapshots events initialPath) := by
  unfold assignmentSnapshots
  exact (snapshotFold_inv events (initState initialPath)
    [(initState initialPath).currentEntries] rfl (List.chain'_singleton _)).2

/-- Every entry of a diffed snapshot is either the first entry of the
previous snapshot carrying its value (a copy), or a value the previous
snapshot did not contain at all. -/
theorem buildNew_mem (old : List PathEntry) (file : String) (line : Int)
    (nodeID : String) (el? : Option Int) (used : Bool) (ps : List String) :
    ∀ e ∈ (buildNewEntries old file line nodeID el? used ps).1,
      old.find? (fun c => c.Value = e.Value) = some e ∨
      old.find? (fun c => c.Value = e.Value) = none := by
  induction ps generalizing used with
  | nil => intro e he; exact absurd he (by simp [buildNewEntries_nil])
  | cons p rest ih =>
    intro e he
    rw [buildNewEntries_cons] at he
    by_cases hp : p = ""
    · rw [if_pos hp] at he
      exact ih used e he
    · rw [if_neg hp] at he
      cases hf : old.find? (fun c => c.Value = p) with
      | some e0 =>
        rw [hf] at he
        dsimp only at he
        rcases List.mem_cons.mp he with rfl | he'
        · exact Or.inl (find?_value_shift old p e hf).2
        · exact ih used e he'
      | none =>
        rw [hf] at he
        dsimp only at he
        rcases List.mem_cons.mp he with rfl | he'
        · exact Or.inr (by simpa [mkFreshEntry] using hf)
        · exact ih _ e he'

theorem chain'_getD {R : List PathEntry → List PathEntry → Prop}
    {l : List (List PathEntry)} (h : List.Chain' R l) (n : Nat)
    (hn : n + 1 < l.length) : R (l.getD n []) (l.getD (n + 1) []) := by
  have h1 : l.getD n [] = l.get ⟨n, by omega⟩ := by
    rw [List.getD_eq_getElem?_getD, List.getElem?_eq_getElem (by omega)]
    rfl
  have h2 : l.getD (n + 1) [] = l.get ⟨n + 1, hn⟩ := by
    rw [List.getD_eq_getElem?_getD, List.getElem?_eq_getElem hn]
    rfl
  rw [h1, h2]
  exact List.chain'_iff_get.mp h n (by omega)

/-- C2 (confirmed).  Attribution stability: for every event list and
baseline, if an entry of the snapshot produced by PATH assignment N+1
carries a value already present in the snapshot of assignment N, then
some entry of snapshot N carries that value with the same source file and
line number (the diff copies the first matching entry wholesale and never
re-attributes a persisting directory to the later assignment). -/
theorem c2_attribution_stability (events : List TraceEvent) (initialPath : String)
    (n : Nat) (e o : PathEntry)
    (hn : n + 1 < (assignmentSnapshots events initialPath).length)
    (he : e ∈ (assignmentSnapshots events initialPath).getD (n + 1) [])
    (ho : o ∈ (assignmentSnapshots events initialPath).getD n [])
    (hv : o.Value = e.Value) :
    ∃ o' ∈ (assignmentSnapshots events initialPath).getD n [],
      o'.Value = e.Value ∧ o'.SourceFile = e.SourceFile ∧
      o'.LineNumber = e.LineNumber := by
  have hrel := chain'_getD (assignmentSnapshots_chain events initialPath) n hn
  obtain ⟨file, line, nodeID, el?, used, ps, hbuild⟩ := hrel
  rw [hbuild] at he
  rcases buildNew_mem _ _ _ _ _ _ _ e he with hsome | hnone
  · exact ⟨e, List.mem_of_find?_eq_some hsome, rfl, rfl, rfl⟩
  · have hno := List.find?_eq_none.mp hnone o ho
    simp only [decide_eq_true_eq] at hno
    exact absurd hv hno

/-- Witness for C2: with baseline `/usr/bin:/bin` and one assignment
appending `/x`, the first entry of the new snapshot keeps the baseline
attribution. -/
theorem c2_attribution_stability_witness :
    ∃ o' ∈ (assignmentSnapshots
        [{ File := "/f", Line := 1, RawCommand := "export PATH=$PATH:/x",
           PathChange := "/usr/bin:/bin:/x" }] "/usr/bin:/bin").getD 0 [],
      o'.Value = (((assignmentSnapshots
        [{ File := "/f", Line := 1, RawCommand := "export PATH=$PATH:/x",
           PathChange := "/usr/bin:/bin:/x" }] "/usr/bin:/bin").getD 1 []).getD 0 {}).Value ∧
      o'.SourceFile = (((assignmentSnapshots
        [{ File := "/f", Line := 1, RawCommand := "export PATH=$PATH:/x",
           PathChange := "/usr/bin:/bin:/x" }] "/usr/bin:/bin").getD 1 []).getD 0 {}).SourceFile ∧
      o'.LineNumber = (((assignmentSnapshots
        [{ File := "/f", Line := 1, RawCommand := "export PATH=$PATH:/x",
           PathChange := "/usr/bin:/bin:/x" }] "/usr/bin:/bin").getD 1 []).getD 0 {}).LineNumber :=
  c2_attribution_stability _ _ 0
    ((((assignmentSnapshots
        [{ File := "/f", Line := 1, RawCommand := "export PATH=$PATH:/x",
           PathChange := "/usr/bin:/bin:/x" }] "/usr/bin:/bin").getD 1 []).getD 0 {}))
    ((((assignmentSnapshots
        [{ File := "/f", Line := 1, RawCommand := "export PATH=$PATH:/x",
           PathChange := "/usr/bin:/bin:/x" }] "/usr/bin:/bin").getD 0 []).getD 0 {}))
    (by decide) (by decide) (by decide) (by decide)


/-! ## Lemmas for the session unifier allow-list (C9) -/

theorem unifyOne_fst (traced : List PathEntry) (acc : List PathEntry × List Nat)
    (p : String) :
    (unifyOne traced acc p).1 =
      if p = "" then acc.1 else acc.1 ++ [mkUnified traced p] := by
  unfold unifyOne mkUnified
  (repeat' split) <;> rfl

theorem buildUnified_entries (traced : List PathEntry) :
    ∀ (parts : List String) (acc : List PathEntry × List Nat),
      (parts.foldl (unifyOne traced) acc).1 =
        acc.1 ++ (parts.filter (fun p => p ≠ "")).map (mkUnified traced) := by
  intro parts
  induction parts with
  | nil => intro acc; simp
  | cons p rest ih =>
    intro acc
    rw [List.foldl_cons, ih]
    by_cases hp : p = ""
    · subst hp
      rw [List.filter_cons]
      have h0 : (unifyOne traced acc "").1 = acc.1 := by
        rw [unifyOne_fst, if_pos rfl]
      simp [h0]
    · rw [List.filter_cons]
      have h1 : (unifyOne traced acc p).1 = acc.1 ++ [mkUnified traced p] := by
        rw [unifyOne_fst, if_neg hp]
      simp [h1, hp]


theorem map_eq_proj_getD {β : Type} (f : PathEntry → β) {l l' : List PathEntry}
    (h : l.map f = l'.map f) (i : Nat) (hi : i < l'.length) :
    f (l.getD i {}) = f (l'.getD i {}) := by
  have hlen : l.length = l'.length := by
    have := congrArg List.length h
    simpa using this
  have h1 : (l.map f)[i]? = (l'.map f)[i]? := by rw [h]
  rw [List.getElem?_map, List.getElem?_map, List.getElem?_eq_getElem (by omega),
      List.getElem?_eq_getElem hi] at h1
  simp only [Option.map_some', Option.some.injEq] at h1
  rw [List.getD_eq_getElem?_getD, List.getD_eq_getElem?_getD,
      List.getElem?_eq_getElem (by omega : i < l.length),
      List.getElem?_eq_getElem hi]
  simpa using h1

theorem map_getD_entry (f : String → PathEntry) (l : List String) (i : Nat)
    (hi : i < l.length) : (l.map f).getD i {} = f (l.getD i "") := by
  rw [List.getD_eq_getElem?_getD, List.getD_eq_getElem?_getD, List.getElem?_map,
      List.getElem?_eq_getElem hi]
  rfl

/-- C9 (confirmed).  For every live-PATH directory whose value matches no
trace-derived entry but is in the fixed allow-list of well-known
OS-default directories, `AnalyzeUnified` attributes it to
`System (Default)` and never marks it session-only. -/
theorem c9_system_allowlist (fs : FS) (events : List TraceEvent)
    (sessionPath : String) (i : Nat)
    (hi : i < ((strSplit sessionPath ':').filter (fun p => p ≠ "")).length)
    (hmiss : (analyze fs events sandboxInitialPath).PathEntries.all
      (fun e => e.Value ≠
        ((strSplit sessionPath ':').filter (fun p => p ≠ "")).getD i "") = true)
    (hsys : isLikelySystemPath
      (((strSplit sessionPath ':').filter (fun p => p ≠ "")).getD i "") = true) :
    ((analyzeUnified fs sessionPath events).PathEntries.getD i {}).SourceFile =
      "System (Default)" ∧
    ((analyzeUnified fs sessionPath events).PathEntries.getD i {}).IsSessionOnly =
      false := by
  have hshow : (analyzeUnified fs sessionPath events).PathEntries =
      ppUnified fs (buildUnifiedEntries
        (analyze fs events sandboxInitialPath).PathEntries sessionPath).1 := rfl
  set traced := (analyze fs events sandboxInitialPath).PathEntries with htr
  set p := ((strSplit sessionPath ':').filter (fun p => p ≠ "")).getD i "" with hP
  have hU : (buildUnifiedEntries traced sessionPath).1 =
      ((strSplit sessionPath ':').filter (fun p => p ≠ "")).map (mkUnified traced) := by
    unfold buildUnifiedEntries
    rw [buildUnified_entries]
    rfl
  have hfind : traced.find? (fun e => e.Value = p) = none := by
    apply List.find?_eq_none.mpr
    intro x hx
    have := List.all_eq_true.mp hmiss x hx
    simpa using this
  have hmk9 : proj9 (mkUnified traced p) = (p, "System (Default)", false) := by
    unfold mkUnified
    rw [hfind, if_pos hsys]
    rfl
  have hp9 : proj9 ((analyzeUnified fs sessionPath events).PathEntries.getD i {}) =
      (p, "System (Default)", false) := by
    rw [hshow]
    have hmapU := map_core_proj9 (ppUnified_core fs (buildUnifiedEntries traced sessionPath).1)
    have hlen : i < (buildUnifiedEntries traced sessionPath).1.length := by
      rw [hU, List.length_map]
      exact hi
    rw [map_eq_proj_getD proj9 hmapU i hlen]
    rw [hU, map_getD_entry (mkUnified traced) _ i hi]
    exact hmk9
  constructor
  · exact congrArg (fun t => t.2.1) hp9
  · exact congrArg (fun t => t.2.2) hp9

/-- Witness for C9: `/usr/local/bin` in the live PATH, absent from an
empty trace, is attributed to `System (Default)`. -/
theorem c9_system_allowlist_witness :
    ((analyzeUnified trivFS "/usr/local/bin" []).PathEntries.getD 0 {}).SourceFile =
      "System (Default)" ∧
    ((analyzeUnified trivFS "/usr/local/bin" []).PathEntries.getD 0 {}).IsSessionOnly =
      false :=
  c9_system_allowlist trivFS [] "/usr/local/bin" 0 (by decide) (by decide) (by decide)

end LsPath


namespace LsPath

theorem ppStateA_succ (fs : FS) (es : List PathEntry) (k : Nat)
    (hk : k < es.length) :
    ppStateA fs es (k + 1) = ppStepA fs (ppStateA fs es k) (es.getD k {}) := by
  unfold ppStateA
  rw [List.take_succ, List.foldl_append]
  rw [List.getElem?_eq_getElem hk]
  rw [List.getD_eq_getElem?_getD, List.getElem?_eq_getElem hk]
  rfl

theorem ppFold_done_extend (fs : FS) (es : List PathEntry) (st : PPState) :
    ∃ suf, (es.foldl (ppStepA fs) st).done = st.done ++ suf := by
  induction es generalizing st with
  | nil => exact ⟨[], by simp⟩
  | cons e rest ih =>
    obtain ⟨e', hd, _⟩ := ppStepA_core fs st e
    obtain ⟨suf, hsuf⟩ := ih (ppStepA fs st e)
    exact ⟨[e'] ++ suf, by rw [List.foldl_cons, hsuf, hd, List.append_assoc]⟩

theorem ppStateA_done_len (fs : FS) (es : List PathEntry) (k : Nat)
    (hk : k ≤ es.length) : (ppStateA fs es k).done.length = k := by
  have h := ppFoldA_core fs (es.take k) ppInit
  have := congrArg List.length h
  simpa [ppStateA, ppInit, List.length_take, Nat.min_eq_left hk] using this

theorem ppAnalyze_eq_state (fs : FS) (es : List PathEntry) :
    ppAnalyze fs es = (ppStateA fs es es.length).done := by
  unfold ppAnalyze ppStateA
  rw [List.take_length]

theorem ppAnalyze_getD_state (fs : FS) (es : List PathEntry) (k j : Nat)
    (hk : k ≤ es.length) (hj : j < k) :
    (ppAnalyze fs es).getD j {} = (ppStateA fs es k).done.getD j {} := by
  have hsplit : ppAnalyze fs es =
      ((es.drop k).foldl (ppStepA fs) (ppStateA fs es k)).done := by
    unfold ppAnalyze ppStateA
    rw [← List.foldl_append, List.take_append_drop]
  obtain ⟨suf, hsuf⟩ := ppFold_done_extend fs (es.drop k) (ppStateA fs es k)
  rw [hsplit, hsuf]
  have hlen := ppStateA_done_len fs es k hk
  rw [List.getD_eq_getElem?_getD, List.getD_eq_getElem?_getD,
      List.getElem?_append,
      if_pos (show j < (ppStateA fs es k).done.length by omega)]

end LsPath

namespace LsPath

theorem ppStepA_dup (fs : FS) (st : PPState) (e0 : PathEntry) (f : Nat)
    (hlook : mapLookup st.seen (expandTilde fs e0.Value) = some f) :
    (ppStepA fs st e0).seen = st.seen ∧
    (ppStepA fs st e0).resolved = st.resolved ∧
    ∃ e', (ppStepA fs st e0).done = st.done ++ [e'] ∧
      e'.Value = e0.Value ∧ e'.IsDuplicate = true ∧ e'.DuplicateOf = f := by
  unfold ppStepA
  cases h1 : fs.readlink (expandTilde fs e0.Value) <;>
    simp only [h1, hlook] <;> (repeat' split) <;>
    first
      | exact ⟨rfl, rfl, _, rfl, rfl, rfl, rfl⟩
      | (exfalso; simp_all)

theorem ppStepA_nodup (fs : FS) (st : PPState) (e0 : PathEntry)
    (hlook : mapLookup st.seen (expandTilde fs e0.Value) = none)
    (hdup0 : e0.IsDuplicate = false) :
    (ppStepA fs st e0).seen =
      mapInsert st.seen (expandTilde fs e0.Value) st.done.length ∧
    (∃ R, (ppStepA fs st e0).resolved = mapInsert st.resolved R st.done.length) ∧
    ∃ e', (ppStepA fs st e0).done = st.done ++ [e'] ∧
      e'.Value = e0.Value ∧ e'.IsDuplicate = false := by
  unfold ppStepA
  cases h1 : fs.readlink (expandTilde fs e0.Value) <;>
    simp only [h1, hlook] <;> (repeat' split) <;>
    first
      | exact ⟨rfl, ⟨_, rfl⟩, _, rfl, rfl, hdup0⟩
      | (exfalso; simp_all)

end LsPath

namespace LsPath

theorem find?_range_lt (n : Nat) (p : Nat → Bool) (f : Nat)
    (h : (List.range n).find? p = some f) :
    f < n ∧ p f = true ∧ ∀ i, i < f → p i = false := by
  induction n with
  | zero => exact absurd h (by simp)
  | succ n ih =>
    rw [List.range_succ, List.find?_append] at h
    cases hn : (List.range n).find? p with
    | some f' =>
      rw [hn] at h
      simp only [Option.or_some] at h
      obtain rfl : f' = f := Option.some.inj h
      obtain ⟨h1, h2, h3⟩ := ih hn
      exact ⟨by omega, h2, h3⟩
    | none =>
      rw [hn] at h
      simp only [Option.none_or] at h
      have hpf : p n = true ∧ f = n := by
        by_cases hp : p n = true
        · rw [List.find?_cons_of_pos _ hp] at h
          exact ⟨hp, (Option.some.inj h).symm⟩
        · rw [List.find?_cons_of_neg _ (by simpa using hp)] at h
          exact absurd h (by simp)
      obtain ⟨hp, rfl⟩ := hpf
      refine ⟨by omega, hp, ?_⟩
      intro i hi
      have := List.find?_eq_none.mp hn i (by simpa [List.mem_range] using hi)
      simpa using this

theorem find?_range_isSome (n : Nat) (p : Nat → Bool) (i : Nat)
    (hi : i < n) (hp : p i = true) :
    ∃ f, (List.range n).find? p = some f := by
  cases h : (List.range n).find? p with
  | some f => exact ⟨f, rfl⟩
  | none =>
    have := List.find?_eq_none.mp h i (by simpa [List.mem_range] using hi)
    exact absurd hp (by simpa using this)

theorem firstNorm_succ_of_some (fs : FS) (es : List PathEntry) (k : Nat)
    (v : String) (f : Nat)
    (h : firstNormIdxBelow fs es k v = some f) :
    firstNormIdxBelow fs es (k + 1) v = some f := by
  unfold firstNormIdxBelow at *
  rw [List.range_succ, List.find?_append, h]
  rfl

theorem firstNorm_succ_of_none (fs : FS) (es : List PathEntry) (k : Nat)
    (v : String) (h : firstNormIdxBelow fs es k v = none) :
    firstNormIdxBelow fs es (k + 1) v =
      (if expandTilde fs ((es.getD k {}).Value) = v then some k else none) := by
  unfold firstNormIdxBelow at *
  rw [List.range_succ, List.find?_append, h]
  simp only [Option.none_or]
  by_cases hv : expandTilde fs ((es.getD k {}).Value) = v
  · rw [if_pos hv, List.find?_cons_of_pos _ (by simpa using hv)]
  · rw [if_neg hv, List.find?_cons_of_neg _ (by simpa using hv)]
    rfl

end LsPath

namespace LsPath

theorem mapLookup_insert_self {α : Type} (m : List (String × α)) (k : String) (v : α) :
    mapLookup (mapInsert m k v) k = some v := by
  induction m with
  | nil => simp [mapInsert, mapLookup]
  | cons p rest ih =>
    obtain ⟨k0, v0⟩ := p
    unfold mapInsert
    split
    · unfold mapLookup
      rw [if_pos rfl]
    · rename_i h
      unfold mapLookup
      rw [if_neg h]
      exact ih

theorem mapLookup_insert_ne {α : Type} (m : List (String × α)) (k k' : String)
    (v : α) (h : k' ≠ k) :
    mapLookup (mapInsert m k v) k' = mapLookup m k' := by
  induction m with
  | nil =>
    simp only [mapInsert, mapLookup]
    rw [if_neg (fun hh => h hh.symm)]
  | cons p rest ih =>
    obtain ⟨k0, v0⟩ := p
    unfold mapInsert
    split
    · rename_i hk0
      subst hk0
      unfold mapLookup
      rw [if_neg (fun hh => h hh.symm), if_neg (fun hh => h hh.symm)]
    · unfold mapLookup
      split
      · rfl
      · exact ih

theorem done_append_getD (d : List PathEntry) (e' : PathEntry) (j : Nat)
    (hj : j < d.length) : (d ++ [e']).getD j {} = d.getD j {} := by
  rw [List.getD_eq_getElem?_getD, List.getD_eq_getElem?_getD,
      List.getElem?_append, if_pos hj]

theorem done_append_getD_last (d : List PathEntry) (e' : PathEntry) :
    (d ++ [e']).getD d.length {} = e' := by
  rw [List.getD_eq_getElem?_getD, List.getElem?_append, if_neg (by omega)]
  simp

end LsPath

namespace LsPath

theorem ppA_inv (fs : FS) (es : List PathEntry)
    (hin : ∀ e ∈ es, e.IsDuplicate = false) :
    ∀ k, k ≤ es.length →
      (∀ v, mapLookup (ppStateA fs es k).seen v = firstNormIdxBelow fs es k v) ∧
      (∀ j, j < k →
        ((ppStateA fs es k).done.getD j {}).Value = (es.getD j {}).Value ∧
        (((ppStateA fs es k).done.getD j {}).IsDuplicate =
          (firstNormIdxBelow fs es j (normAt fs es j)).isSome) ∧
        (∀ f, firstNormIdxBelow fs es j (normAt fs es j) = some f →
          ((ppStateA fs es k).done.getD j {}).DuplicateOf = f)) ∧
      (∀ v j, mapLookup (ppStateA fs es k).resolved v = some j →
        j < k ∧ ((ppStateA fs es k).done.getD j {}).IsDuplicate = false) := by
  intro k
  induction k with
  | zero =>
    intro _
    refine ⟨?_, ?_, ?_⟩
    · intro v
      show mapLookup ppInit.seen v = _
      unfold firstNormIdxBelow
      simp [ppInit, mapLookup]
    · intro j hj
      exact absurd hj (by omega)
    · intro v j h
      exact absurd h (by simp [ppStateA, ppInit, mapLookup])
  | succ k ih =>
    intro hk1
    have hklt : k < es.length := by omega
    obtain ⟨ihS, ihD, ihR⟩ := ih (by omega)
    have hstep := ppStateA_succ fs es k hklt
    have hlen := ppStateA_done_len fs es k (by omega)
    cases hlook : mapLookup (ppStateA fs es k).seen
        (expandTilde fs ((es.getD k {}).Value)) with
    | some f =>
      obtain ⟨hseen, hres, e', hdone, hval, hdup, hdupof⟩ :=
        ppStepA_dup fs (ppStateA fs es k) (es.getD k {}) f hlook
      have hfirst : firstNormIdxBelow fs es k (normAt fs es k) = some f := by
        rw [← ihS]
        exact hlook
      have hstable : ∀ j, j < k →
          (ppStateA fs es (k + 1)).done.getD j {} =
            (ppStateA fs es k).done.getD j {} := by
        intro j hj
        rw [hstep, hdone, done_append_getD _ _ j (by omega)]
      have hlast : (ppStateA fs es (k + 1)).done.getD k {} = e' := by
        rw [hstep, hdone]
        have hgl := done_append_getD_last (ppStateA fs es k).done e'
        rw [hlen] at hgl
        exact hgl
      refine ⟨?_, ?_, ?_⟩
      · intro v
        rw [hstep, hseen, ihS v]
        cases hv : firstNormIdxBelow fs es k v with
        | some g => rw [firstNorm_succ_of_some _ _ _ _ _ hv]
        | none =>
          rw [firstNorm_succ_of_none _ _ _ _ hv]
          by_cases hveq : expandTilde fs ((es.getD k {}).Value) = v
          · exfalso
            rw [← hveq] at hv
            rw [show expandTilde fs ((es.getD k {}).Value) = normAt fs es k from rfl] at hv
            rw [hv] at hfirst
            exact Option.noConfusion hfirst
          · rw [if_neg hveq]
      · intro j hj
        rcases Nat.lt_succ_iff_lt_or_eq.mp hj with hjk | rfl
        · obtain ⟨i1, i2, i3⟩ := ihD j hjk
          rw [hstable j hjk]
          exact ⟨i1, i2, i3⟩
        · rw [hlast]
          refine ⟨hval, ?_, ?_⟩
          · rw [hdup, hfirst]
            rfl
          · intro f' hf'
            rw [hfirst] at hf'
            rw [hdupof]
            exact Option.some.inj hf'
      · intro v j h
        rw [hstep, hres] at h
        obtain ⟨hj, hd⟩ := ihR v j h
        exact ⟨by omega, by rw [hstable j hj]; exact hd⟩
    | none =>
      have hdup0 : (es.getD k {}).IsDuplicate = false := by
        apply hin
        rw [List.getD_eq_getElem?_getD, List.getElem?_eq_getElem hklt]
        exact List.getElem_mem hklt
      obtain ⟨hseen, ⟨R, hres⟩, e', hdone, hval, hdup⟩ :=
        ppStepA_nodup fs (ppStateA fs es k) (es.getD k {}) hlook hdup0
      have hfirstnone : firstNormIdxBelow fs es k (normAt fs es k) = none := by
        rw [← ihS]
        exact hlook
      have hstable : ∀ j, j < k →
          (ppStateA fs es (k + 1)).done.getD j {} =
            (ppStateA fs es k).done.getD j {} := by
        intro j hj
        rw [hstep, hdone, done_append_getD _ _ j (by omega)]
      have hlast : (ppStateA fs es (k + 1)).done.getD k {} = e' := by
        rw [hstep, hdone]
        have hgl := done_append_getD_last (ppStateA fs es k).done e'
        rw [hlen] at hgl
        exact hgl
      refine ⟨?_, ?_, ?_⟩
      · intro v
        rw [hstep, hseen, hlen]
        by_cases hveq : v = expandTilde fs ((es.getD k {}).Value)
        · subst hveq
          rw [mapLookup_insert_self]
          have hfe : firstNormIdxBelow fs es k
              (expandTilde fs ((es.getD k {}).Value)) = none := hfirstnone
          rw [firstNorm_succ_of_none _ _ _ _ hfe, if_pos rfl]
        · rw [mapLookup_insert_ne _ _ _ _ hveq, ihS v]
          cases hv : firstNormIdxBelow fs es k v with
          | some g => rw [firstNorm_succ_of_some _ _ _ _ _ hv]
          | none =>
            rw [firstNorm_succ_of_none _ _ _ _ hv]
            rw [if_neg (fun hh => hveq hh.symm)]
      · intro j hj
        rcases Nat.lt_succ_iff_lt_or_eq.mp hj with hjk | hjeq
        · obtain ⟨i1, i2, i3⟩ := ihD j hjk
          rw [hstable j hjk]
          exact ⟨i1, i2, i3⟩
        · subst hjeq
          rw [hlast]
          refine ⟨hval, ?_, ?_⟩
          · rw [hdup, hfirstnone]
            rfl
          · intro f' hf'
            rw [hfirstnone] at hf'
            exact absurd hf' Option.noConfusion
      · intro v j h
        rw [hstep, hres, hlen] at h
        by_cases hveq : v = R
        · subst hveq
          rw [mapLookup_insert_self] at h
          obtain rfl : k = j := Option.some.inj h
          refine ⟨by omega, ?_⟩
          rw [hlast]
          exact hdup
        · rw [mapLookup_insert_ne _ _ _ _ hveq] at h
          obtain ⟨hj, hd⟩ := ihR v j h
          exact ⟨by omega, by rw [hstable j hj]; exact hd⟩

end LsPath

namespace LsPath

theorem buildNew_dup_false (old : List PathEntry) (file : String) (line : Int)
    (nodeID : String) (el? : Option Int)
    (hold : ∀ e ∈ old, e.IsDuplicate = false) (used : Bool) (ps : List String) :
    ∀ e ∈ (buildNewEntries old file line nodeID el? used ps).1,
      e.IsDuplicate = false := by
  induction ps generalizing used with
  | nil => intro e he; exact absurd he (by simp [buildNewEntries_nil])
  | cons p rest ih =>
    intro e he
    rw [buildNewEntries_cons] at he
    by_cases hp : p = ""
    · rw [if_pos hp] at he
      exact ih used e he
    · rw [if_neg hp] at he
      cases hf : old.find? (fun c => c.Value = p) with
      | some e0 =>
        rw [hf] at he
        dsimp only at he
        rcases List.mem_cons.mp he with rfl | he'
        · exact hold e (List.mem_of_find?_eq_some hf)
        · exact ih used e he'
      | none =>
        rw [hf] at he
        dsimp only at he
        rcases List.mem_cons.mp he with rfl | he'
        · rfl
        · exact ih _ e he'

theorem initState_dup_false (initialPath : String) :
    ∀ e ∈ (initState initialPath).currentEntries, e.IsDuplicate = false := by
  intro e he
  unfold initState at he
  dsimp only at he
  split at he
  · obtain ⟨p, _, rfl⟩ := List.mem_map.mp he
    rfl
  · exact absurd he (by simp)

theorem runEvents_dup_false (events : List TraceEvent) (initialPath : String) :
    ∀ e ∈ (runEvents events initialPath).currentEntries,
      e.IsDuplicate = false := by
  have key : ∀ (evs : List TraceEvent) (st : AState),
      (∀ e ∈ st.currentEntries, e.IsDuplicate = false) →
      ∀ e ∈ (evs.foldl stepEvent st).currentEntries, e.IsDuplicate = false := by
    intro evs
    induction evs with
    | nil => intro st h; exact h
    | cons ev rest ih =>
      intro st h
      rw [List.foldl_cons]
      apply ih
      show ∀ e ∈ (diffStep (nodeStep (evalStep st ev) ev) ev).currentEntries, _
      have h1 : ∀ e ∈ (nodeStep (evalStep st ev) ev).currentEntries,
          e.IsDuplicate = false := by
        rw [(nodeStep_pres _ _).1, (evalStep_pres _ _).1]
        exact h
      unfold diffStep
      split
      · intro e he
        dsimp only at he
        exact buildNew_dup_false _ _ _ _ _ h1 _ _ e he
      · exact h1
  exact key events (initState initialPath) (initState_dup_false initialPath)

theorem provisional_dup_false (events : List TraceEvent) (initialPath : String) :
    ∀ e ∈ provisionalEntries events initialPath, e.IsDuplicate = false := by
  intro e he
  unfold provisionalEntries at he
  obtain ⟨e0, he0, rfl⟩ := List.mem_map.mp he
  show e0.IsDuplicate = false
  exact runEvents_dup_false events initialPath e0 he0

theorem analyze_map_proj5 (fs : FS) (events : List TraceEvent) (initialPath : String) :
    (analyze fs events initialPath).PathEntries.map proj5 =
      (ppAnalyze fs (provisionalEntries events initialPath)).map proj5 := by
  show ((attributeEntries (runEvents events initialPath).flowNodes
      (ppAnalyze fs (provisionalEntries events initialPath))).foldl filterMerge
      ([], ppAnalyze fs (provisionalEntries events initialPath))).2.map proj5 = _
  rw [filterMerge_snd_map proj5 (fun e id => rfl)]

theorem ppAnalyze_length (fs : FS) (es : List PathEntry) :
    (ppAnalyze fs es).length = es.length := by
  have := congrArg List.length (ppAnalyze_core fs es)
  simpa using this

theorem ppAnalyze_dup_char (fs : FS) (es : List PathEntry)
    (hin : ∀ e ∈ es, e.IsDuplicate = false) (j : Nat) (hj : j < es.length) :
    ((ppAnalyze fs es).getD j {}).Value = (es.getD j {}).Value ∧
    ((ppAnalyze fs es).getD j {}).IsDuplicate =
      (firstNormIdxBelow fs es j (normAt fs es j)).isSome ∧
    ∀ f, firstNormIdxBelow fs es j (normAt fs es j) = some f →
      ((ppAnalyze fs es).getD j {}).DuplicateOf = f := by
  obtain ⟨_, hD, _⟩ := ppA_inv fs es hin es.length (le_refl _)
  have h := hD j hj
  rw [ppAnalyze_getD_state fs es es.length j (le_refl _) hj]
  exact h

end LsPath

namespace LsPath



/-- Claim C5 (amended): in the final entry list of `Analyze`, whenever two
indices `i < j` carry the same tilde-normalized value, entry `j` is marked
`IsDuplicate`, and its `DuplicateOf` points at the *first* index carrying
that normalized value: an index that is `≤ i` and `< j`, whose entry has
the same normalized value, and which is itself never marked duplicate.
(The original claim demanded `DuplicateOf = i` for every such pair, which
fails when `i` is not the first occurrence.) -/
theorem c5_duplicate_direction_amended (fs : FS) (events : List TraceEvent)
    (initialPath : String) (i j : Nat) (hij : i < j)
    (hj : j < ((analyze fs events initialPath).PathEntries).length)
    (hnorm :
      expandTilde fs
          (((analyze fs events initialPath).PathEntries.getD i {}).Value) =
      expandTilde fs
          (((analyze fs events initialPath).PathEntries.getD j {}).Value)) :
    (((analyze fs events initialPath).PathEntries.getD j {}).IsDuplicate = true) ∧
    (((analyze fs events initialPath).PathEntries.getD j {}).DuplicateOf ≤ i) ∧
    (((analyze fs events initialPath).PathEntries.getD j {}).DuplicateOf < j) ∧
    (expandTilde fs
        (((analyze fs events initialPath).PathEntries.getD
          (((analyze fs events initialPath).PathEntries.getD j {}).DuplicateOf)
          {}).Value) =
      expandTilde fs
        (((analyze fs events initialPath).PathEntries.getD j {}).Value)) ∧
    (((analyze fs events initialPath).PathEntries.getD
        (((analyze fs events initialPath).PathEntries.getD j {}).DuplicateOf)
        {}).IsDuplicate = false) := by
  have hmap := analyze_map_proj5 fs events initialPath
  have hin := provisional_dup_false events initialPath
  have hlenpp := ppAnalyze_length fs (provisionalEntries events initialPath)
  have hlenr : (analyze fs events initialPath).PathEntries.length =
      (ppAnalyze fs (provisionalEntries events initialPath)).length := by
    have := congrArg List.length hmap
    simpa using this
  have hjes : j < (provisionalEntries events initialPath).length := by omega
  have hies : i < (provisionalEntries events initialPath).length := by omega
  have hpj := map_eq_proj_getD proj5 hmap j (by omega)
  have hpi := map_eq_proj_getD proj5 hmap i (by omega)
  have hVj : ((analyze fs events initialPath).PathEntries.getD j {}).Value =
      ((ppAnalyze fs (provisionalEntries events initialPath)).getD j {}).Value :=
    congrArg Prod.fst hpj
  have hDj : ((analyze fs events initialPath).PathEntries.getD j {}).IsDuplicate =
      ((ppAnalyze fs (provisionalEntries events initialPath)).getD j {}).IsDuplicate :=
    congrArg (fun t => t.2.1) hpj
  have hOj : ((analyze fs events initialPath).PathEntries.getD j {}).DuplicateOf =
      ((ppAnalyze fs (provisionalEntries events initialPath)).getD j {}).DuplicateOf :=
    congrArg (fun t => t.2.2) hpj
  have hVi : ((analyze fs events initialPath).PathEntries.getD i {}).Value =
      ((ppAnalyze fs (provisionalEntries events initialPath)).getD i {}).Value :=
    congrArg Prod.fst hpi
  obtain ⟨hvj, hdj, hfj⟩ :=
    ppAnalyze_dup_char fs (provisionalEntries events initialPath) hin j hjes
  obtain ⟨hvi, _, _⟩ :=
    ppAnalyze_dup_char fs (provisionalEntries events initialPath) hin i hies
  have hnormi : expandTilde fs
      (((provisionalEntries events initialPath).getD i {}).Value) =
      normAt fs (provisionalEntries events initialPath) j := by
    show _ = expandTilde fs (((provisionalEntries events initialPath).getD j {}).Value)
    rw [← hvi, ← hvj, ← hVi, ← hVj]
    exact hnorm
  have hsome : ∃ f, firstNormIdxBelow fs (provisionalEntries events initialPath) j
      (normAt fs (provisionalEntries events initialPath) j) = some f := by
    unfold firstNormIdxBelow
    exact find?_range_isSome j _ i hij (decide_eq_true hnormi)
  obtain ⟨f, hf⟩ := hsome
  obtain ⟨hfj', hpf, hmin⟩ := find?_range_lt j _ f hf
  have hpf' : expandTilde fs
      (((provisionalEntries events initialPath).getD f {}).Value) =
      normAt fs (provisionalEntries events initialPath) j :=
    of_decide_eq_true hpf
  have hfle : f ≤ i := by
    rcases Nat.lt_or_ge i f with hlt | hge
    · have hc := hmin i hlt
      rw [decide_eq_true hnormi] at hc
      exact Bool.noConfusion hc
    · omega
  have hDOf : ((analyze fs events initialPath).PathEntries.getD j {}).DuplicateOf = f := by
    rw [hOj]
    exact hfj f hf
  obtain ⟨hvf, hdf, _⟩ :=
    ppAnalyze_dup_char fs (provisionalEntries events initialPath) hin f (by omega)
  have hpff := map_eq_proj_getD proj5 hmap f (by omega)
  have hVf : ((analyze fs events initialPath).PathEntries.getD f {}).Value =
      ((ppAnalyze fs (provisionalEntries events initialPath)).getD f {}).Value :=
    congrArg Prod.fst hpff
  have hDf : ((analyze fs events initialPath).PathEntries.getD f {}).IsDuplicate =
      ((ppAnalyze fs (provisionalEntries events initialPath)).getD f {}).IsDuplicate :=
    congrArg (fun t => t.2.1) hpff
  have hnonef : firstNormIdxBelow fs (provisionalEntries events initialPath) f
      (normAt fs (provisionalEntries events initialPath) f) = none := by
    have hfn : normAt fs (provisionalEntries events initialPath) f =
        normAt fs (provisionalEntries events initialPath) j := hpf'
    rw [hfn]
    unfold firstNormIdxBelow
    apply List.find?_eq_none.mpr
    intro i' hi'
    simpa using hmin i' (List.mem_range.mp hi')
  refine ⟨?_, ?_, ?_, ?_, ?_⟩
  · rw [hDj, hdj, hf]
    rfl
  · omega
  · omega
  · rw [hDOf, hVf, hvf, hVj, hvj]
    exact hpf'
  · rw [hDOf, hDf, hdf, hnonef]
    rfl

end LsPath

namespace LsPath

theorem cleanStep_stack_ne (rooted : Bool) (stack : List (List Char))
    (comp : List Char) (hs : ∀ x ∈ stack, x ≠ []) (hc : comp ≠ []) :
    ∀ x ∈ cleanStep rooted stack comp, x ≠ [] := by
  intro x hx
  cases stack with
  | nil =>
    simp only [cleanStep] at hx
    split at hx
    · split at hx
      · exact absurd hx (by simp)
      · obtain rfl := List.mem_singleton.mp hx
        decide
    · rcases List.mem_cons.mp hx with rfl | hx'
      · exact hc
      · exact absurd hx' (by simp)
  | cons top rest =>
    simp only [cleanStep] at hx
    split at hx
    · split at hx
      · rcases List.mem_cons.mp hx with rfl | hx'
        · exact hc
        · exact hs x hx'
      · exact hs x (List.mem_cons_of_mem _ hx)
    · rcases List.mem_cons.mp hx with rfl | hx'
      · exact hc
      · exact hs x hx'

theorem cleanFold_stack_ne (rooted : Bool) (comps : List (List Char)) :
    ∀ (stack : List (List Char)), (∀ c ∈ comps, c ≠ []) →
      (∀ x ∈ stack, x ≠ []) →
      ∀ x ∈ comps.foldl (cleanStep rooted) stack, x ≠ [] := by
  induction comps with
  | nil => intro stack _ hs x hx; exact hs x hx
  | cons c rest ih =>
    intro stack hc hs x hx
    rw [List.foldl_cons] at hx
    exact ih _ (fun c' h => hc c' (List.mem_cons_of_mem _ h))
      (cleanStep_stack_ne rooted stack c hs (hc c (List.mem_cons_self _ _))) x hx

theorem joinCh_ne_nil (parts : List (List Char)) (c : Char)
    (hne : parts ≠ []) (h : ∀ x ∈ parts, x ≠ []) : joinCh parts c ≠ [] := by
  cases parts with
  | nil => exact absurd rfl hne
  | cons p rest =>
    cases rest with
    | nil =>
      show p ≠ []
      exact h p (by simp)
    | cons q rest' =>
      show p ++ c :: joinCh (q :: rest') c ≠ []
      simp

theorem ofChars_ne_empty (l : List Char) (h : l ≠ []) : ofChars l ≠ "" := by
  intro hcontra
  exact h (congrArg String.data hcontra)

theorem goClean_ne_empty (p : String) : goClean p ≠ "" := by
  unfold goClean
  dsimp only
  split
  · decide
  · split
    · apply ofChars_ne_empty
      simp
    · split
      · decide
      · apply ofChars_ne_empty
        apply joinCh_ne_nil
        · assumption
        · intro x hx
          rw [List.mem_reverse] at hx
          refine cleanFold_stack_ne (goIsAbs p) _ [] ?_ (by simp) x hx
          intro c hcmem
          have hpred := (List.mem_filter.mp hcmem).2
          exact (of_decide_eq_true hpred).1

theorem ppStepA_symlink (fs : FS) (st : PPState) (e0 : PathEntry)
    (t : String) (k : Nat)
    (hrl : resolveOneLevel fs (expandTilde fs e0.Value) = some t)
    (hseen : mapLookup st.seen (expandTilde fs e0.Value) = none)
    (hres : mapLookup st.resolved t = some k)
    (hdup0 : e0.IsDuplicate = false) :
    ∃ e', (ppStepA fs st e0).done = st.done ++ [e'] ∧
      e'.Value = e0.Value ∧ e'.IsSymlink = true ∧
      e'.SymlinkPointsTo = (k : Int) ∧ e'.IsDuplicate = false := by
  unfold resolveOneLevel at hrl
  cases h1 : fs.readlink (expandTilde fs e0.Value) with
  | none =>
    rw [h1] at hrl
    exact absurd hrl (by simp)
  | some target =>
    rw [h1] at hrl
    simp only [Option.map_some'] at hrl
    obtain rfl := (Option.some.inj hrl).symm
    have hne := goClean_ne_empty
      (if goIsAbs target then target
       else goJoin (goDir (expandTilde fs e0.Value)) target)
    unfold ppStepA
    simp only [h1, if_neg hne, hseen, hres]
    (repeat' split) <;>
      first
        | exact ⟨_, rfl, rfl, rfl, rfl, hdup0⟩
        | (exfalso; simp_all)

end LsPath

namespace LsPath

theorem analyze_map_proj8 (fs : FS) (events : List TraceEvent) (initialPath : String) :
    (analyze fs events initialPath).PathEntries.map proj8 =
      (ppAnalyze fs (provisionalEntries events initialPath)).map proj8 := by
  show ((attributeEntries (runEvents events initialPath).flowNodes
      (ppAnalyze fs (provisionalEntries events initialPath))).foldl filterMerge
      ([], ppAnalyze fs (provisionalEntries events initialPath))).2.map proj8 = _
  rw [filterMerge_snd_map proj8 (fun e id => rfl)]

/-- Claim C8: if entry `j` of the final list of `Analyze` is a symlink whose
one-level-resolved target (relative targets joined to the symlink parent
directory, then cleaned) is the registered resolved path of index `k`, and
entry `j` has no earlier index with the same normalized value, then the
post-processor sets `IsSymlink = true` and `SymlinkPointsTo = k`, leaves
`IsDuplicate = false`, and `k` is an earlier non-duplicate entry. -/
theorem c8_symlink_crossref (fs : FS) (events : List TraceEvent) (initialPath : String)
    (j k : Nat) (t : String)
    (hj : j < ((analyze fs events initialPath).PathEntries).length)
    (hrl : resolveOneLevel fs
      (normAt fs (provisionalEntries events initialPath) j) = some t)
    (hunseen : firstNormIdxBelow fs (provisionalEntries events initialPath) j
      (normAt fs (provisionalEntries events initialPath) j) = none)
    (hreg : mapLookup
      (ppStateA fs (provisionalEntries events initialPath) j).resolved t =
      some k) :
    ((analyze fs events initialPath).PathEntries.getD j {}).IsSymlink = true ∧
    ((analyze fs events initialPath).PathEntries.getD j {}).SymlinkPointsTo =
      (k : Int) ∧
    ((analyze fs events initialPath).PathEntries.getD j {}).IsDuplicate = false ∧
    k < j ∧
    ((analyze fs events initialPath).PathEntries.getD k {}).IsDuplicate = false := by
  have hmap := analyze_map_proj8 fs events initialPath
  have hin := provisional_dup_false events initialPath
  have hlenpp := ppAnalyze_length fs (provisionalEntries events initialPath)
  have hlenr : (analyze fs events initialPath).PathEntries.length =
      (ppAnalyze fs (provisionalEntries events initialPath)).length := by
    have := congrArg List.length hmap
    simpa using this
  have hjes : j < (provisionalEntries events initialPath).length := by omega
  obtain ⟨ihS, _, ihR⟩ :=
    ppA_inv fs (provisionalEntries events initialPath) hin j (by omega)
  obtain ⟨hkj, hkdup⟩ := ihR t k hreg
  have hseen : mapLookup
      (ppStateA fs (provisionalEntries events initialPath) j).seen
      (expandTilde fs
        (((provisionalEntries events initialPath).getD j {}).Value)) = none := by
    rw [ihS]
    exact hunseen
  have hdup0 : ((provisionalEntries events initialPath).getD j {}).IsDuplicate =
      false := by
    apply hin
    rw [List.getD_eq_getElem?_getD, List.getElem?_eq_getElem hjes]
    exact List.getElem_mem hjes
  obtain ⟨e', hdone, hval, hsym, hpts, hdup⟩ :=
    ppStepA_symlink fs (ppStateA fs (provisionalEntries events initialPath) j)
      ((provisionalEntries events initialPath).getD j {}) t k hrl hseen hreg hdup0
  have hstep := ppStateA_succ fs (provisionalEntries events initialPath) j hjes
  have hlen := ppStateA_done_len fs (provisionalEntries events initialPath) j
    (by omega)
  have hppj : (ppAnalyze fs (provisionalEntries events initialPath)).getD j {} =
      e' := by
    rw [ppAnalyze_getD_state fs (provisionalEntries events initialPath) (j + 1) j
      (by omega) (by omega)]
    rw [hstep, hdone]
    have hgl := done_append_getD_last
      (ppStateA fs (provisionalEntries events initialPath) j).done e'
    rw [hlen] at hgl
    exact hgl
  have hppk : (ppAnalyze fs (provisionalEntries events initialPath)).getD k {} =
      (ppStateA fs (provisionalEntries events initialPath) j).done.getD k {} :=
    ppAnalyze_getD_state fs (provisionalEntries events initialPath) j k
      (by omega) hkj
  have hpj := map_eq_proj_getD proj8 hmap j (by omega)
  have hpk := map_eq_proj_getD proj8 hmap k (by omega)
  have hSj : ((analyze fs events initialPath).PathEntries.getD j {}).IsSymlink =
      ((ppAnalyze fs (provisionalEntries events initialPath)).getD j {}).IsSymlink :=
    congrArg (fun x => x.2.2.1) hpj
  have hPj : ((analyze fs events initialPath).PathEntries.getD j
      {}).SymlinkPointsTo =
      ((ppAnalyze fs (provisionalEntries events initialPath)).getD j
      {}).SymlinkPointsTo :=
    congrArg (fun x => x.2.2.2) hpj
  have hDj : ((analyze fs events initialPath).PathEntries.getD j {}).IsDuplicate =
      ((ppAnalyze fs (provisionalEntries events initialPath)).getD j {}).IsDuplicate :=
    congrArg (fun x => x.2.1) hpj
  have hDk : ((analyze fs events initialPath).PathEntries.getD k {}).IsDuplicate =
      ((ppAnalyze fs (provisionalEntries events initialPath)).getD k {}).IsDuplicate :=
    congrArg (fun x => x.2.1) hpk
  refine ⟨?_, ?_, ?_, hkj, ?_⟩
  · rw [hSj, hppj]
    exact hsym
  · rw [hPj, hppj]
    exact hpts
  · rw [hDj, hppj]
    exact hdup
  · rw [hDk, hppk]
    exact hkdup

end LsPath

namespace LsPath







end LsPath

namespace LsPath

/-- Counterexample to claim C5 as stated: on `PATH=/a:/a:/a` the pair
`(i, j) = (1, 2)` has equal normalized values and entry `2` is marked
duplicate, but its `DuplicateOf` is `0` (the first occurrence), not `1`
as the claim demands for every such pair. -/
theorem c5_duplicate_direction_counterexample :
    1 < 2 ∧
    2 < ((analyze trivFS [c5TripleEvent] "").PathEntries).length ∧
    expandTilde trivFS
        (((analyze trivFS [c5TripleEvent] "").PathEntries.getD 1 {}).Value) =
      expandTilde trivFS
        (((analyze trivFS [c5TripleEvent] "").PathEntries.getD 2 {}).Value) ∧
    ((analyze trivFS [c5TripleEvent] "").PathEntries.getD 2 {}).IsDuplicate =
      true ∧
    ¬(((analyze trivFS [c5TripleEvent] "").PathEntries.getD 2 {}).DuplicateOf =
      1) := by
  decide

/-- Witness for the amended C5: on `PATH=/a:/b:/a`, pair `(0, 2)`; entry 2
is a duplicate of the first occurrence (index 0), an earlier non-duplicate
entry with the same normalized value. -/
theorem c5_duplicate_direction_witness :
    ((0 : Nat) < 2 ∧
     2 < ((analyze trivFS [c5Event] "").PathEntries).length ∧
     expandTilde trivFS
         (((analyze trivFS [c5Event] "").PathEntries.getD 0 {}).Value) =
       expandTilde trivFS
         (((analyze trivFS [c5Event] "").PathEntries.getD 2 {}).Value)) ∧
    (((analyze trivFS [c5Event] "").PathEntries.getD 2 {}).IsDuplicate = true) ∧
    (((analyze trivFS [c5Event] "").PathEntries.getD 2 {}).DuplicateOf ≤ 0) ∧
    (((analyze trivFS [c5Event] "").PathEntries.getD 2 {}).DuplicateOf < 2) ∧
    (expandTilde trivFS
        (((analyze trivFS [c5Event] "").PathEntries.getD
          (((analyze trivFS [c5Event] "").PathEntries.getD 2 {}).DuplicateOf)
          {}).Value) =
      expandTilde trivFS
        (((analyze trivFS [c5Event] "").PathEntries.getD 2 {}).Value)) ∧
    (((analyze trivFS [c5Event] "").PathEntries.getD
        (((analyze trivFS [c5Event] "").PathEntries.getD 2 {}).DuplicateOf)
        {}).IsDuplicate = false) :=
  ⟨⟨by decide, by decide, by decide⟩,
   c5_duplicate_direction_amended trivFS [c5Event] "" 0 2 (by decide)
     (by decide) (by decide)⟩

/-- Witness for C8: with `/b` a symlink to `/a` and `PATH=/a:/b`, entry 1
is flagged as a symlink pointing to entry 0, which is an earlier
non-duplicate entry, and entry 1 is not a duplicate. -/
theorem c8_symlink_crossref_witness :
    (1 < ((analyze c8fs [c8Event] "").PathEntries).length ∧
     resolveOneLevel c8fs (normAt c8fs (provisionalEntries [c8Event] "") 1) =
       some "/a" ∧
     firstNormIdxBelow c8fs (provisionalEntries [c8Event] "") 1
       (normAt c8fs (provisionalEntries [c8Event] "") 1) = none ∧
     mapLookup (ppStateA c8fs (provisionalEntries [c8Event] "") 1).resolved
       "/a" = some 0) ∧
    ((analyze c8fs [c8Event] "").PathEntries.getD 1 {}).IsSymlink = true ∧
    ((analyze c8fs [c8Event] "").PathEntries.getD 1 {}).SymlinkPointsTo =
      ((0 : Nat) : Int) ∧
    ((analyze c8fs [c8Event] "").PathEntries.getD 1 {}).IsDuplicate = false ∧
    0 < 1 ∧
    ((analyze c8fs [c8Event] "").PathEntries.getD 0 {}).IsDuplicate = false :=
  ⟨⟨by decide, by decide, by decide, by decide⟩,
   c8_symlink_crossref c8fs [c8Event] "" 1 0 "/a" (by decide) (by decide)
     (by decide) (by decide)⟩

end LsPath
